import Mathlib

/-!
Shallow embedding of the rodis hash (field-map) storage layer
(`storage/hash.go`) and command layer (`command/hash.go`) over an
ordered key-value store, together with proofs of the specification
claims about them.

The store is modelled as a flat association list from encoded byte
keys to byte values; byte strings are `List Nat`.  Go maps used by the
command layer are modelled as association lists with replace-on-insert
semantics, so that duplicate keys collapse exactly as in Go.
-/

set_option maxHeartbeats 1000000

set_option autoImplicit false

abbrev Bytes := List Nat

abbrev DB := List (Bytes × Bytes)

abbrev GoMap := List (Bytes × Bytes)

abbrev Args := List Bytes

/-- The separator byte between record key and field name (`'|'`, from
`strings.IndexByte(..., '|')` and the `-Key|Field` comment in `hash.go`). -/
def sep : Nat := 124

/-- The value-namespace prefix byte (`'-'`, from the `-Key|Field` comment). -/
def valuePfx : Nat := 45

/-- Modelled from the spec: the metadata-namespace prefix byte
(`encodeMetaKey` is not under `src/`).  The spec requires only that the two
namespace prefixes are disjoint single bytes; we fix `'+'`. -/
def metaPfx : Nat := 43

/-- Modelled from the spec: the type tag for the composite field-map (hash)
record type (the `resp.Hash` constant is not under `src/`).  Its numeric
value is irrelevant to every claim; only its distinctness from the tags of
other types matters. -/
def respHash : Nat := 2

/-- `encodeFieldKey` from `storage/hash.go`: `-Key|Field`. -/
def encodeFieldKey (key f : Bytes) : Bytes := valuePfx :: (key ++ sep :: f)

/-- Modelled from the spec: `encodeMeta(key)` → prefix byte + key bytes
(`encodeMetaKey` is not under `src/`). -/
def encodeMetaKey (key : Bytes) : Bytes := metaPfx :: key

/-- Modelled from the spec: the metadata value is a single type tag
(`encodeMetadata` is not under `src/`). -/
def encodeMetadata (t : Nat) : Bytes := [t]

/-- Point lookup in the flat store. -/
def dbGet (db : DB) (q : Bytes) : Option Bytes :=
  (db.find? (fun e => e.1 == q)).map (fun e => e.2)

/-- A single `Put`: replaces any existing entry with the same encoded key. -/
def dbPut (db : DB) (q w : Bytes) : DB :=
  (q, w) :: db.filter (fun e => !(e.1 == q))

/-- A batched delete of a list of encoded keys (`ldb.delete`). -/
def dbDeleteKeys (db : DB) (ks : List Bytes) : DB :=
  db.filter (fun e => !(ks.contains e.1))

/-- A prefix range scan (`util.BytesPrefix` iteration). -/
def dbScan (db : DB) (p : Bytes) : DB :=
  db.filter (fun e => p.isPrefixOf e.1)

/-- Modelled from the spec: `ldb.get` (not under `src/`) returns a
zero-length sentinel for a missing key, indistinguishable from a stored
empty value. -/
def ldbGetD (db : DB) (q : Bytes) : Bytes := (dbGet db q).getD []

/-- Modelled from the spec: `hasRecord(key)`/`ex.DB.Has` (not under `src/`)
returns (exists, type) by metadata lookup; absence of metadata means the
key does not exist. -/
def dbHas (db : DB) (k : Bytes) : Option Nat :=
  (dbGet db (encodeMetaKey k)).map (fun w => w.headD 0)

/-- Lookup in a Go map value (`hash[string(f)]`), with the zero-length
sentinel for a missing map key. -/
def mapGet (m : GoMap) (q : Bytes) : Bytes :=
  ((m.find? (fun e => e.1 == q)).map (fun e => e.2)).getD []

/-- Insertion into a Go map (`hash[string(f)] = v`): replaces the existing
entry if present, appends otherwise. -/
def mapPut (m : GoMap) (q w : Bytes) : GoMap :=
  if m.any (fun e => e.1 == q) then
    m.map (fun e => if e.1 == q then (q, w) else e)
  else m ++ [(q, w)]

/-- The bytes after the first separator byte, if any. -/
def afterSep : Bytes → Bytes
  | [] => []
  | b :: r => if b == sep then r else afterSep r

/-- Field-name recovery as in `hash.go`: `iter.Key()[IndexByte(key,'|')+1:]`.
When no separator occurs, `IndexByte` yields `-1` and Go returns the whole
key. -/
def fieldFromKey (ek : Bytes) : Bytes :=
  if ek.contains sep then afterSep ek else ek

/-- `PutHash` from `storage/hash.go`: one atomic batch writing the metadata
entry and one field entry per map item. -/
def PutHash (db : DB) (key : Bytes) (t : Nat) (m : GoMap) : DB :=
  m.foldl (fun d kv => dbPut d (encodeFieldKey key kv.1) kv.2)
    (dbPut db (encodeMetaKey key) (encodeMetadata t))

/-- `GetFields` from `storage/hash.go`: a Go map from each requested field
to its stored value (zero-length sentinel when absent). -/
def GetFields (db : DB) (key : Bytes) (fs : List Bytes) : GoMap :=
  fs.foldl (fun m f => mapPut m f (ldbGetD db (encodeFieldKey key f))) []

/-- `GetFieldNames` from `storage/hash.go`: prefix scan, decoding each field
name after the first separator. -/
def GetFieldNames (db : DB) (key : Bytes) : List Bytes :=
  (dbScan db (encodeFieldKey key [])).map (fun e => fieldFromKey e.1)

/-- `GetHashAsArray` from `storage/hash.go`. -/
def GetHashAsArray (db : DB) (key : Bytes) : List (Bytes × Bytes) :=
  (dbScan db (encodeFieldKey key [])).map (fun e => (fieldFromKey e.1, e.2))

/-- `GetFieldsAsArray` from `storage/hash.go`. -/
def GetFieldsAsArray (db : DB) (key : Bytes) (fs : List Bytes) : List (Bytes × Bytes) :=
  fs.map (fun f => (f, ldbGetD db (encodeFieldKey key f)))

/-- `DeleteFields` from `storage/hash.go`: delete the named fields, then a
fresh prefix scan; if no field entries remain, delete the metadata entry in
a second step. -/
def DeleteFields (db : DB) (key : Bytes) (fs : List Bytes) : DB :=
  let d1 := dbDeleteKeys db (fs.map (fun f => encodeFieldKey key f))
  if dbScan d1 (encodeFieldKey key []) = [] then dbDeleteKeys d1 [encodeMetaKey key]
  else d1

/-- Go's `strconv.ParseInt(s, 10, 64)` digit loop. -/
def digitsVal : Bytes → Nat → Option Nat
  | [], acc => some acc
  | b :: r, acc =>
    if 48 ≤ b && b ≤ 57 then digitsVal r (acc * 10 + (b - 48)) else none

/-- Go's `strconv.ParseInt(s, 10, 64)`: optional sign, at least one decimal
digit, value within the signed 64-bit range; `none` on any error (including
range errors, which Go reports as a non-nil `err`). -/
def parseInt64 (s : Bytes) : Option Int :=
  let signed : Bool × Bytes :=
    match s with
    | 43 :: r => (false, r)
    | 45 :: r => (true, r)
    | _ => (false, s)
  if signed.2.isEmpty then none else
  match digitsVal signed.2 0 with
  | none => none
  | some n =>
    if signed.1 then
      if n ≤ 2 ^ 63 then some (-(n : Int)) else none
    else
      if n ≤ 2 ^ 63 - 1 then some ((n : Int)) else none

/-- Decimal digits of a natural number, as ASCII bytes. -/
def natDecimal (n : Nat) : Bytes := (Nat.toDigits 10 n).map Char.toNat

/-- Go's `strconv.FormatInt(i, 10)`: canonical decimal representation. -/
def formatInt64 (i : Int) : Bytes :=
  if i < 0 then 45 :: natDecimal i.natAbs else natDecimal i.toNat

/-- Two's-complement wraparound of Go `int64` addition. -/
def wrap64 (x : Int) : Int := (x + 2 ^ 63) % 2 ^ 64 - 2 ^ 63

/-- An element of a reply array: the hash handlers only ever append bulk
strings or the nil bulk sentinel to `resp.Array`. -/
inductive RItem where
  | bulk : Bytes → RItem
  | nilBulk : RItem
  deriving DecidableEq

/-- The typed reply objects of the resp layer that the handlers produce. -/
inductive Reply where
  | ints : Int → Reply
  | bulk : Bytes → Reply
  | nilBulk : Reply
  | arr : List RItem → Reply
  | ok : Reply
  | errWrongType : Reply
  | errNotValidInt : Reply
  | errNotValidFloat : Reply
  | errWrongNumber : String → Reply
  deriving DecidableEq

/-- The `keyExists && tipe != resp.Hash` test shared by every handler. -/
def wrongTipe (db : DB) (k : Bytes) : Bool :=
  match dbHas db k with
  | some t => t != respHash
  | none => false

/-- The floating-point parse/format primitives used by `hincrbyfloat`
(`strconv.ParseFloat`/`FormatFloat`), kept abstract: every claim about
`hincrbyfloat` depends only on parse success/failure and on the control
flow, never on float arithmetic. -/
structure FloatOps where
  parseOk : Bytes → Bool
  deltaFmt : Bytes → Bytes
  addFmt : Bytes → Bytes → Bytes

/-- `hdel` from `command/hash.go`. -/
def hdel (v : Args) (db : DB) : Option (Reply × DB) :=
  if v.length < 2 then some (.errWrongNumber "hdel", db) else
  match v[0]? with
  | none => none
  | some k =>
    match dbHas db k with
    | none => some (.ints 0, db)
    | some t =>
      if t != respHash then some (.errWrongType, db) else
      let fs := v.drop 1
      let hash := GetFields db k fs
      let count := (hash.filter (fun e => e.2.length != 0)).length
      some (.ints (count : Int), DeleteFields db k fs)

/-- `hexists` from `command/hash.go`. -/
def hexists (v : Args) (db : DB) : Option (Reply × DB) :=
  match v[0]? with
  | none => none
  | some k =>
    if wrongTipe db k then some (.errWrongType, db) else
    match v[1]? with
    | none => none
    | some f =>
      let hash := GetFields db k [f]
      if (mapGet hash f).length == 0 then some (.ints 0, db)
      else some (.ints 1, db)

/-- `hget` from `command/hash.go`. -/
def hget (v : Args) (db : DB) : Option (Reply × DB) :=
  match v[0]? with
  | none => none
  | some k =>
    match dbHas db k with
    | none => some (.nilBulk, db)
    | some t =>
      if t != respHash then some (.errWrongType, db) else
      match v[1]? with
      | none => none
      | some f =>
        let hash := GetFields db k [f]
        if (mapGet hash f).length == 0 then some (.nilBulk, db)
        else some (.bulk (mapGet hash f), db)

/-- `hgetall` from `command/hash.go`. -/
def hgetall (v : Args) (db : DB) : Option (Reply × DB) :=
  match v[0]? with
  | none => none
  | some k =>
    match dbHas db k with
    | none => some (.arr [], db)
    | some t =>
      if t != respHash then some (.errWrongType, db) else
      let hash := GetHashAsArray db k
      some (.arr (hash.foldr (fun e acc => RItem.bulk e.1 :: RItem.bulk e.2 :: acc) []), db)

/-- `hincrby` from `command/hash.go`.  The delta argument `v[2]` is parsed
before the lock and the type check; Go `int64` addition wraps. -/
def hincrby (v : Args) (db : DB) : Option (Reply × DB) :=
  match v[2]? with
  | none => none
  | some dArg =>
    match parseInt64 dArg with
    | none => some (.errNotValidInt, db)
    | some d =>
      match v[0]? with
      | none => none
      | some k =>
        if wrongTipe db k then some (.errWrongType, db) else
        match v[1]? with
        | none => none
        | some f =>
          let hash := GetFields db k [f]
          let s := mapGet hash f
          if s.length == 0 then
            some (.ints d, PutHash db k respHash (mapPut hash f (formatInt64 d)))
          else
            match parseInt64 s with
            | none => some (.errNotValidInt, db)
            | some c =>
              let nv := wrap64 (c + d)
              some (.ints nv, PutHash db k respHash (mapPut hash f (formatInt64 nv)))

/-- `hincrbyfloat` from `command/hash.go`.  Note the delta parse failure
replies with the integer error kind (`ErrNotValidInt`). -/
def hincrbyfloat (fo : FloatOps) (v : Args) (db : DB) : Option (Reply × DB) :=
  match v[2]? with
  | none => none
  | some dArg =>
    if !fo.parseOk dArg then some (.errNotValidInt, db) else
    match v[0]? with
    | none => none
    | some k =>
      if wrongTipe db k then some (.errWrongType, db) else
      match v[1]? with
      | none => none
      | some f =>
        let hash := GetFields db k [f]
        let s := mapGet hash f
        if s.length == 0 then
          let nv := fo.deltaFmt dArg
          some (.bulk nv, PutHash db k respHash (mapPut hash f nv))
        else
          if !fo.parseOk s then some (.errNotValidFloat, db) else
          let nv := fo.addFmt s dArg
          some (.bulk nv, PutHash db k respHash (mapPut hash f nv))

/-- `hkeys` from `command/hash.go`. -/
def hkeys (v : Args) (db : DB) : Option (Reply × DB) :=
  match v[0]? with
  | none => none
  | some k =>
    match dbHas db k with
    | none => some (.arr [], db)
    | some t =>
      if t != respHash then some (.errWrongType, db) else
      some (.arr ((GetFieldNames db k).map (fun f => RItem.bulk f)), db)

/-- `hvals` from `command/hash.go`. -/
def hvals (v : Args) (db : DB) : Option (Reply × DB) :=
  match v[0]? with
  | none => none
  | some k =>
    match dbHas db k with
    | none => some (.arr [], db)
    | some t =>
      if t != respHash then some (.errWrongType, db) else
      some (.arr ((GetHashAsArray db k).map (fun e => RItem.bulk e.2)), db)

/-- `hlen` from `command/hash.go`. -/
def hlen (v : Args) (db : DB) : Option (Reply × DB) :=
  match v[0]? with
  | none => none
  | some k =>
    match dbHas db k with
    | none => some (.ints 0, db)
    | some t =>
      if t != respHash then some (.errWrongType, db) else
      some (.ints ((GetFieldNames db k).length : Int), db)

/-- `hmget` from `command/hash.go`. -/
def hmget (v : Args) (db : DB) : Option (Reply × DB) :=
  if v.length < 2 then some (.errWrongNumber "hmget", db) else
  match v[0]? with
  | none => none
  | some k =>
    if wrongTipe db k then some (.errWrongType, db) else
    let hash := GetFieldsAsArray db k (v.drop 1)
    some (.arr (hash.map (fun e => if e.2.length == 0 then RItem.nilBulk else RItem.bulk e.2)), db)

/-- The Go map built by `hmset`'s pair loop (`hash[string(v[i])] = v[i+1]`). -/
def insPairs (m : GoMap) : List Bytes → GoMap
  | [] => m
  | [_] => m
  | f :: w :: r => insPairs (mapPut m f w) r

/-- `hmset` from `command/hash.go`: requires `len(v) > 1` and an odd total
argument count. -/
def hmset (v : Args) (db : DB) : Option (Reply × DB) :=
  if v.length ≤ 1 || v.length % 2 != 1 then some (.errWrongNumber "hmset", db) else
  match v[0]? with
  | none => none
  | some k =>
    if wrongTipe db k then some (.errWrongType, db) else
    some (.ok, PutHash db k respHash (insPairs [] (v.drop 1)))

/-- `hset` from `command/hash.go`. -/
def hset (v : Args) (db : DB) : Option (Reply × DB) :=
  match v[0]? with
  | none => none
  | some k =>
    if wrongTipe db k then some (.errWrongType, db) else
    match v[1]? with
    | none => none
    | some f =>
      let hash := GetFields db k [f]
      let fieldLen := (mapGet hash f).length
      match v[2]? with
      | none => none
      | some w =>
        let db2 := PutHash db k respHash (mapPut hash f w)
        if fieldLen == 0 then some (.ints 1, db2) else some (.ints 0, db2)

/-- `hsetnx` from `command/hash.go`: `v[2]` is only read on the write path. -/
def hsetnx (v : Args) (db : DB) : Option (Reply × DB) :=
  match v[0]? with
  | none => none
  | some k =>
    if wrongTipe db k then some (.errWrongType, db) else
    match v[1]? with
    | none => none
    | some f =>
      let hash := GetFields db k [f]
      if (mapGet hash f).length == 0 then
        match v[2]? with
        | none => none
        | some w => some (.ints 1, PutHash db k respHash (mapPut hash f w))
      else some (.ints 0, db)

/-- `hstrlen` from `command/hash.go`. -/
def hstrlen (v : Args) (db : DB) : Option (Reply × DB) :=
  match v[0]? with
  | none => none
  | some k =>
    match dbHas db k with
    | none => some (.ints 0, db)
    | some t =>
      if t != respHash then some (.errWrongType, db) else
      match v[1]? with
      | none => none
      | some f =>
        some (.ints ((mapGet (GetFields db k [f]) f).length : Int), db)

/-- The commands of the field-map family. -/
inductive HCmd where
  | hdel | hexists | hget | hgetall | hincrby | hincrbyfloat | hkeys | hvals | hlen
  | hmget | hmset | hset | hsetnx | hstrlen
  deriving DecidableEq

/-- Run one handler.  A `none` result marks an out-of-range argument access
(a Go slice-index panic). -/
def runCmd (fo : FloatOps) : HCmd → Args → DB → Option (Reply × DB)
  | .hdel => hdel
  | .hexists => hexists
  | .hget => hget
  | .hgetall => hgetall
  | .hincrby => hincrby
  | .hincrbyfloat => hincrbyfloat fo
  | .hkeys => hkeys
  | .hvals => hvals
  | .hlen => hlen
  | .hmget => hmget
  | .hmset => hmset
  | .hset => hset
  | .hsetnx => hsetnx
  | .hstrlen => hstrlen

def cmdName : HCmd → String
  | .hdel => "hdel"
  | .hexists => "hexists"
  | .hget => "hget"
  | .hgetall => "hgetall"
  | .hincrby => "hincrby"
  | .hincrbyfloat => "hincrbyfloat"
  | .hkeys => "hkeys"
  | .hvals => "hvals"
  | .hlen => "hlen"
  | .hmget => "hmget"
  | .hmset => "hmset"
  | .hset => "hset"
  | .hsetnx => "hsetnx"
  | .hstrlen => "hstrlen"

/-- Modelled from the spec: the per-command argument-shape requirement of
§4.4 that the dispatch layer (not under `src/`) validates before invoking a
handler, replying WrongNumberOfArguments and taking no lock when violated.
Variadic commands re-check their shape inside the handler as in `src/`. -/
def arityOk : HCmd → Nat → Bool
  | .hdel, n => 2 ≤ n
  | .hexists, n => n == 2
  | .hget, n => n == 2
  | .hgetall, n => n == 1
  | .hincrby, n => n == 3
  | .hincrbyfloat, n => n == 3
  | .hkeys, n => n == 1
  | .hvals, n => n == 1
  | .hlen, n => n == 1
  | .hmget, n => 2 ≤ n
  | .hmset, n => 3 ≤ n
  | .hset, n => n == 3
  | .hsetnx, n => n == 3
  | .hstrlen, n => n == 2

/-- Modelled from the spec: command dispatch validates the argument shape
first and otherwise invokes the handler. -/
def dispatch (fo : FloatOps) (c : HCmd) (v : Args) (db : DB) : Option (Reply × DB) :=
  if arityOk c v.length then runCmd fo c v db
  else some (.errWrongNumber (cmdName c), db)

/-- The byte string contains no separator byte. -/
def sepFree (k : Bytes) : Prop := sep ∉ k

instance (k : Bytes) : Decidable (sepFree k) := inferInstanceAs (Decidable (sep ∉ k))

/-- The metadata entry of `k` exists and marks the hash type. -/
def metaIsHash (db : DB) (k : Bytes) : Bool :=
  match dbHas db k with
  | some t => t == respHash
  | none => false

/-- At least one entry of the store lies in `k`'s field range. -/
def hasFieldEntry (db : DB) (k : Bytes) : Bool :=
  db.any (fun e => (encodeFieldKey k []).isPrefixOf e.1)

/-- The metadata/field consistency invariant, restricted to separator-free
record keys (the encoding is ambiguous for the others). -/
def HashInv (db : DB) : Prop :=
  ∀ k : Bytes, sepFree k → metaIsHash db k = hasFieldEntry db k

/-- The command's key argument (position 0), when present, is
separator-free. -/
def keyArgOk (v : Args) : Prop :=
  ∀ k : Bytes, v[0]? = some k → sepFree k

/-- A concrete instance of the abstract float primitives, used only by
witnesses: exactly the byte string `"x"` fails to parse. -/
def foSample : FloatOps where
  parseOk := fun b => !(b == [120])
  deltaFmt := fun b => b
  addFmt := fun s _ => s

/-! ### Supporting lemmas about the flat store -/

theorem find?_filter_eq {α : Type} (l : List α) (p f : α → Bool)
    (h : ∀ x, p x = true → f x = true) : (l.filter f).find? p = l.find? p := by
  induction l with
  | nil => rfl
  | cons x xs ih =>
    by_cases hf : f x = true
    · rw [List.filter_cons_of_pos hf]
      by_cases hp : p x = true
      · rw [List.find?_cons_of_pos _ hp, List.find?_cons_of_pos _ hp]
      · rw [List.find?_cons_of_neg _ hp, List.find?_cons_of_neg _ hp, ih]
    · rw [List.filter_cons_of_neg hf]
      have hp : ¬ p x = true := fun hp => hf (h x hp)
      rw [List.find?_cons_of_neg _ hp, ih]

theorem dbGet_dbPut (d : DB) (a w q : Bytes) :
    dbGet (dbPut d a w) q = if q = a then some w else dbGet d q := by
  unfold dbGet dbPut
  by_cases h : q = a
  · subst h
    rw [List.find?_cons_of_pos _ (by simp)]
    simp
  · rw [if_neg h, List.find?_cons_of_neg _ (by simpa using fun e => h e.symm)]
    rw [find?_filter_eq]
    intro x hx
    simp only [beq_iff_eq] at hx
    simp [hx, h]

theorem dbGet_dbDeleteKeys (d : DB) (ks : List Bytes) (q : Bytes) :
    dbGet (dbDeleteKeys d ks) q = if q ∈ ks then none else dbGet d q := by
  unfold dbGet dbDeleteKeys
  by_cases h : q ∈ ks
  · rw [if_pos h]
    rw [show (List.filter (fun e => !ks.contains e.1) d).find? (fun e => e.1 == q) = none from ?_]
    · rfl
    · rw [List.find?_eq_none]
      intro x hx
      simp only [List.mem_filter] at hx
      simp only [beq_iff_eq]
      intro hq
      rw [hq] at hx
      simp [List.elem_iff, h] at hx
  · rw [if_neg h, find?_filter_eq]
    intro x hx
    simp only [beq_iff_eq] at hx
    simp [hx, List.elem_iff, h]

theorem any_filter_eq {α : Type} (l : List α) (p f : α → Bool) :
    (l.filter f).any p = l.any (fun x => f x && p x) := by
  induction l with
  | nil => rfl
  | cons x xs ih => by_cases h : f x = true <;> simp [h, ih]

theorem any_congr_mem {α : Type} (l : List α) (p q : α → Bool)
    (h : ∀ x ∈ l, p x = q x) : l.any p = l.any q := by
  induction l with
  | nil => rfl
  | cons x xs ih =>
    simp only [List.any_cons, h x (by simp), ih (fun y hy => h y (by simp [hy]))]

theorem hasFieldEntry_dbPut (d : DB) (a w k : Bytes) :
    hasFieldEntry (dbPut d a w) k
      = ((encodeFieldKey k []).isPrefixOf a || hasFieldEntry d k) := by
  unfold hasFieldEntry dbPut
  rw [List.any_cons, any_filter_eq]
  by_cases hp : (encodeFieldKey k []).isPrefixOf a = true
  · simp [hp]
  · have hp2 : (encodeFieldKey k []).isPrefixOf a = false := by
      exact Bool.not_eq_true _ ▸ (by simpa using hp)
    simp only [hp2, Bool.false_or]
    rw [any_congr_mem]
    intro x _
    by_cases e : x.1 = a
    · simp [e, hp2]
    · simp [e]

/-! ### Encoding lemmas -/

theorem encodeFieldKey_pfx_iff (k e : Bytes) :
    (encodeFieldKey k []).isPrefixOf e = true ↔ ∃ f, e = encodeFieldKey k f := by
  rw [List.isPrefixOf_iff_prefix]
  unfold encodeFieldKey
  constructor
  · rintro ⟨t, ht⟩
    exact ⟨t, by rw [← ht]; simp⟩
  · rintro ⟨f, rfl⟩
    exact ⟨f, by simp⟩

theorem sepKey_prefix_iff (f : Bytes) :
    ∀ k q : Bytes, sepFree k → sepFree q →
      (((k ++ [sep]) <+: (q ++ sep :: f)) ↔ k = q) := by
  intro k
  induction k with
  | nil =>
    intro q hk hq
    cases q with
    | nil => simp
    | cons b q2 =>
      simp only [sepFree, List.mem_cons, not_or] at hq
      simp only [List.nil_append, List.cons_append]
      constructor
      · intro h
        exact absurd (List.cons_prefix_cons.mp h).1.symm (fun e => hq.1 e.symm)
      · intro h
        cases h
  | cons a k2 ih =>
    intro q hk hq
    simp only [sepFree, List.mem_cons, not_or] at hk
    cases q with
    | nil =>
      simp only [List.cons_append, List.nil_append]
      constructor
      · intro h
        exact absurd (List.cons_prefix_cons.mp h).1 (fun e => hk.1 e.symm)
      · intro h
        cases h
    | cons b q2 =>
      simp only [List.cons_append, List.cons_prefix_cons]
      rw [ih q2 hk.2 (fun e => hq (List.mem_cons_of_mem _ e))]
      constructor
      · rintro ⟨rfl, rfl⟩
        rfl
      · intro h
        injection h with h1 h2
        exact ⟨h1, h2⟩

theorem encode_pfx_encode_iff (k q f : Bytes) (hk : sepFree k) (hq : sepFree q) :
    ((encodeFieldKey k []).isPrefixOf (encodeFieldKey q f) = true) ↔ k = q := by
  rw [List.isPrefixOf_iff_prefix]
  unfold encodeFieldKey
  rw [List.cons_prefix_cons]
  rw [show (k ++ sep :: ([] : Bytes)) = k ++ [sep] from rfl]
  rw [sepKey_prefix_iff f k q hk hq]
  simp

theorem pfx_meta_false (k q : Bytes) :
    (encodeFieldKey k []).isPrefixOf (encodeMetaKey q) = false := by
  refine Bool.eq_false_iff.mpr (fun h => ?_)
  rw [List.isPrefixOf_iff_prefix] at h
  unfold encodeFieldKey encodeMetaKey at h
  have h1 := (List.cons_prefix_cons.mp h).1
  exact absurd h1 (by decide)

theorem pfx_self (k f : Bytes) :
    (encodeFieldKey k []).isPrefixOf (encodeFieldKey k f) = true := by
  rw [List.isPrefixOf_iff_prefix]
  unfold encodeFieldKey
  exact ⟨f, by simp⟩

theorem encodeMetaKey_inj {k q : Bytes} : encodeMetaKey k = encodeMetaKey q ↔ k = q := by
  simp [encodeMetaKey]

theorem encodeFieldKey_inj_f {k f g : Bytes} : encodeFieldKey k f = encodeFieldKey k g ↔ f = g := by
  simp [encodeFieldKey]

theorem meta_ne_fieldKey (k q f : Bytes) : encodeMetaKey k ≠ encodeFieldKey q f := by
  simp [encodeMetaKey, encodeFieldKey, metaPfx, valuePfx]

/-! ### Effect of `PutHash` on the store -/

theorem dbGet_foldPut_untouched (key : Bytes) (m : GoMap) (d0 : DB) (q : Bytes)
    (h : ∀ kv ∈ m, q ≠ encodeFieldKey key kv.1) :
    dbGet (m.foldl (fun d kv => dbPut d (encodeFieldKey key kv.1) kv.2) d0) q
      = dbGet d0 q := by
  induction m generalizing d0 with
  | nil => rfl
  | cons kv m2 ih =>
    rw [List.foldl_cons, ih _ (fun x hx => h x (by simp [hx])), dbGet_dbPut,
      if_neg (h kv (by simp))]

theorem dbGet_PutHash_meta (db : DB) (k : Bytes) (t : Nat) (m : GoMap) (q : Bytes) :
    dbGet (PutHash db k t m) (encodeMetaKey q)
      = if q = k then some [t] else dbGet db (encodeMetaKey q) := by
  unfold PutHash
  rw [dbGet_foldPut_untouched _ _ _ _ (fun kv _ => meta_ne_fieldKey q k kv.1), dbGet_dbPut]
  by_cases h : q = k
  · subst h
    simp [encodeMetadata]
  · rw [if_neg (fun e => h (encodeMetaKey_inj.mp e)), if_neg h]

theorem dbHas_PutHash (db : DB) (k : Bytes) (t : Nat) (m : GoMap) (q : Bytes) :
    dbHas (PutHash db k t m) q = if q = k then some t else dbHas db q := by
  unfold dbHas
  rw [dbGet_PutHash_meta]
  by_cases h : q = k <;> simp [h]

theorem metaIsHash_PutHash (db : DB) (k : Bytes) (t : Nat) (m : GoMap) (q : Bytes) :
    metaIsHash (PutHash db k t m) q = if q = k then (t == respHash) else metaIsHash db q := by
  unfold metaIsHash
  rw [dbHas_PutHash]
  by_cases h : q = k <;> simp [h]

theorem hasFieldEntry_foldPut (key : Bytes) (m : GoMap) (d0 : DB) (k : Bytes) :
    hasFieldEntry (m.foldl (fun d kv => dbPut d (encodeFieldKey key kv.1) kv.2) d0) k
      = (m.any (fun kv => (encodeFieldKey k []).isPrefixOf (encodeFieldKey key kv.1))
         || hasFieldEntry d0 k) := by
  induction m generalizing d0 with
  | nil => simp
  | cons kv m2 ih =>
    rw [List.foldl_cons, ih, hasFieldEntry_dbPut, List.any_cons]
    cases h : (encodeFieldKey k []).isPrefixOf (encodeFieldKey key kv.1) <;>
      simp [Bool.or_comm, Bool.or_left_comm]

theorem hasFieldEntry_PutHash_self (db : DB) (k : Bytes) (t : Nat) (m : GoMap)
    (hm : m ≠ []) : hasFieldEntry (PutHash db k t m) k = true := by
  unfold PutHash
  rw [hasFieldEntry_foldPut]
  cases m with
  | nil => exact absurd rfl hm
  | cons kv m2 => simp [List.any_cons, pfx_self]

theorem hasFieldEntry_PutHash_other (db : DB) (k q : Bytes) (t : Nat) (m : GoMap)
    (hk : sepFree k) (hq : sepFree q) (hne : k ≠ q) :
    hasFieldEntry (PutHash db q t m) k = hasFieldEntry db k := by
  unfold PutHash
  rw [hasFieldEntry_foldPut, hasFieldEntry_dbPut, pfx_meta_false]
  rw [any_congr_mem m _ (fun _ => false)
    (fun kv _ => Bool.eq_false_iff.mpr
      (fun h => hne ((encode_pfx_encode_iff k q kv.1 hk hq).mp h)))]
  simp

/-! ### Effect of deletions and scans on the store -/

theorem scan_nil_iff (db : DB) (k : Bytes) :
    dbScan db (encodeFieldKey k []) = [] ↔ hasFieldEntry db k = false := by
  unfold dbScan hasFieldEntry
  rw [List.filter_eq_nil_iff]
  constructor
  · intro h
    refine Bool.eq_false_iff.mpr (fun ha => ?_)
    obtain ⟨x, hx, hpx⟩ := List.any_eq_true.mp ha
    exact h x hx hpx
  · intro h x hx hpx
    have ht : db.any (fun e => (encodeFieldKey k []).isPrefixOf e.1) = true :=
      List.any_eq_true.mpr ⟨x, hx, hpx⟩
    rw [h] at ht
    cases ht

theorem dbGet_field_eq_none (db : DB) (k f : Bytes) (h : hasFieldEntry db k = false) :
    dbGet db (encodeFieldKey k f) = none := by
  unfold dbGet
  rw [List.find?_eq_none.mpr]
  · rfl
  · intro x hx
    simp only [beq_iff_eq]
    intro he
    have ht : db.any (fun e => (encodeFieldKey k []).isPrefixOf e.1) = true :=
      List.any_eq_true.mpr ⟨x, hx, by rw [he]; exact pfx_self k f⟩
    rw [hasFieldEntry] at h
    rw [h] at ht
    cases ht

theorem dbHas_dbDeleteKeys_fields (db : DB) (key : Bytes) (fs : List Bytes) (q : Bytes) :
    dbHas (dbDeleteKeys db (fs.map (fun f => encodeFieldKey key f))) q = dbHas db q := by
  unfold dbHas
  rw [dbGet_dbDeleteKeys, if_neg]
  simp only [List.mem_map]
  rintro ⟨f, -, hf⟩
  exact meta_ne_fieldKey q key f hf.symm

theorem hasFieldEntry_dbDeleteKeys_untouched (db : DB) (ks : List Bytes) (k : Bytes)
    (h : ∀ q ∈ ks, (encodeFieldKey k []).isPrefixOf q = false) :
    hasFieldEntry (dbDeleteKeys db ks) k = hasFieldEntry db k := by
  unfold hasFieldEntry dbDeleteKeys
  rw [any_filter_eq, any_congr_mem]
  intro x _
  by_cases hm : ks.contains x.1 = true
  · have hf := h x.1 (List.elem_iff.mp hm)
    simp [hm, hf]
  · simp only [Bool.not_eq_true] at hm
    simp only [hm, Bool.not_false, Bool.true_and]

theorem dbHas_dbDeleteKeys_meta (db : DB) (k q : Bytes) :
    dbHas (dbDeleteKeys db [encodeMetaKey k]) q
      = if q = k then none else dbHas db q := by
  unfold dbHas
  rw [dbGet_dbDeleteKeys]
  by_cases h : q = k
  · subst h
    simp
  · rw [if_neg (by
      simp only [List.mem_singleton]
      exact fun e => h (encodeMetaKey_inj.mp e)), if_neg h]

theorem hasFieldEntry_dbDeleteKeys_meta (db : DB) (k q : Bytes) :
    hasFieldEntry (dbDeleteKeys db [encodeMetaKey k]) q = hasFieldEntry db q :=
  hasFieldEntry_dbDeleteKeys_untouched db _ q
    (by intro x hx; rw [List.mem_singleton] at hx; rw [hx]; exact pfx_meta_false q k)

theorem metaIsHash_eq_false_of_has_none (db : DB) (k : Bytes) (h : dbHas db k = none) :
    metaIsHash db k = false := by
  unfold metaIsHash
  rw [h]

/-- `DeleteFields` on a separator-free key preserves the invariant when the
key's metadata marks the hash type before the call. -/
theorem HashInv_DeleteFields (db : DB) (k : Bytes) (fs : List Bytes)
    (hinv : HashInv db) (hk : sepFree k) (hmeta : metaIsHash db k = true) :
    HashInv (DeleteFields db k fs) := by
  intro q hq
  unfold DeleteFields
  set d1 := dbDeleteKeys db (fs.map (fun f => encodeFieldKey k f)) with hd1
  by_cases hqk : q = k
  · subst hqk
    by_cases hscan : dbScan d1 (encodeFieldKey q []) = []
    · rw [if_pos hscan]
      have h1 : hasFieldEntry d1 q = false := (scan_nil_iff d1 q).mp hscan
      have h2 : hasFieldEntry (dbDeleteKeys d1 [encodeMetaKey q]) q = false := by
        rw [hasFieldEntry_dbDeleteKeys_meta, h1]
      rw [h2]
      apply metaIsHash_eq_false_of_has_none
      rw [dbHas_dbDeleteKeys_meta, if_pos rfl]
    · rw [if_neg hscan]
      have h1 : hasFieldEntry d1 q = true := by
        cases h : hasFieldEntry d1 q
        · exact absurd ((scan_nil_iff d1 q).mpr h) hscan
        · rfl
      rw [h1]
      unfold metaIsHash at hmeta ⊢
      rw [hd1, dbHas_dbDeleteKeys_fields]
      exact hmeta
  · have hhas : dbHas d1 q = dbHas db q := by
      rw [hd1, dbHas_dbDeleteKeys_fields]
    have hfe : hasFieldEntry d1 q = hasFieldEntry db q := by
      rw [hd1]
      refine hasFieldEntry_dbDeleteKeys_untouched db _ q ?_
      intro p hp
      obtain ⟨f, -, rfl⟩ := List.mem_map.mp hp
      exact Bool.eq_false_iff.mpr (fun h2 => hqk ((encode_pfx_encode_iff q k f hq hk).mp h2))
    by_cases hscan : dbScan d1 (encodeFieldKey k []) = []
    · rw [if_pos hscan]
      have e1 : metaIsHash (dbDeleteKeys d1 [encodeMetaKey k]) q = metaIsHash d1 q := by
        unfold metaIsHash
        rw [dbHas_dbDeleteKeys_meta, if_neg hqk]
      rw [e1, hasFieldEntry_dbDeleteKeys_meta, hfe]
      unfold metaIsHash
      rw [hhas]
      exact hinv q hq
    · rw [if_neg hscan, hfe]
      unfold metaIsHash
      rw [hhas]
      exact hinv q hq

/-- `PutHash` of a nonempty hash-typed map on a separator-free key preserves
the invariant. -/
theorem HashInv_PutHash (db : DB) (k : Bytes) (m : GoMap)
    (hinv : HashInv db) (hk : sepFree k) (hm : m ≠ []) :
    HashInv (PutHash db k respHash m) := by
  intro q hq
  rw [metaIsHash_PutHash]
  by_cases hqk : q = k
  · subst hqk
    rw [if_pos rfl, hasFieldEntry_PutHash_self db q respHash m hm]
    simp
  · rw [if_neg hqk, hasFieldEntry_PutHash_other db q k respHash m hq hk hqk]
    exact hinv q hq

/-! ### Go-map lemmas -/

theorem GetFields_single (db : DB) (k f : Bytes) :
    GetFields db k [f] = [(f, ldbGetD db (encodeFieldKey k f))] := by
  simp [GetFields, mapPut]

theorem mapGet_single (f v : Bytes) : mapGet [(f, v)] f = v := by
  simp [mapGet]

theorem mapPut_single (f v w : Bytes) : mapPut [(f, v)] f w = [(f, w)] := by
  simp [mapPut]

theorem mapPut_fst (m : GoMap) (q w : Bytes) (h : m.any (fun e => e.1 == q) = true) :
    (mapPut m q w).map Prod.fst = m.map Prod.fst := by
  unfold mapPut
  rw [if_pos h, List.map_map]
  refine List.map_congr_left ?_
  intro e _
  by_cases he : e.1 = q <;> simp [he]

theorem mapPut_fst_append (m : GoMap) (q w : Bytes) (h : m.any (fun e => e.1 == q) = false) :
    (mapPut m q w).map Prod.fst = m.map Prod.fst ++ [q] := by
  unfold mapPut
  rw [if_neg (by simp [h]), List.map_append]
  rfl

theorem mapPut_keys_nodup (m : GoMap) (q w : Bytes) (h : (m.map Prod.fst).Nodup) :
    ((mapPut m q w).map Prod.fst).Nodup := by
  cases ha : m.any (fun e => e.1 == q)
  · rw [mapPut_fst_append m q w ha]
    refine List.Nodup.append h (List.nodup_singleton q) ?_
    intro a haa hab
    rw [List.mem_singleton] at hab
    obtain ⟨e, he, hfst⟩ := List.mem_map.mp haa
    have ht : m.any (fun x => x.1 == q) = true :=
      List.any_eq_true.mpr ⟨e, he, by simp [hfst, hab]⟩
    rw [ha] at ht
    cases ht
  · rw [mapPut_fst m q w ha]
    exact h

theorem insPairs_keys_nodup : ∀ (l : List Bytes) (m : GoMap),
    (m.map Prod.fst).Nodup → ((insPairs m l).map Prod.fst).Nodup
  | [], _, h => h
  | [_], _, h => h
  | _ :: w :: r, m, h => insPairs_keys_nodup r _ (mapPut_keys_nodup m _ w h)

theorem dbGet_foldPut_mem (key : Bytes) : ∀ (m : GoMap) (d0 : DB) (f w : Bytes),
    (m.map Prod.fst).Nodup → (f, w) ∈ m →
    dbGet (m.foldl (fun d kv => dbPut d (encodeFieldKey key kv.1) kv.2) d0)
      (encodeFieldKey key f) = some w := by
  intro m
  induction m with
  | nil =>
    intro d0 f w _ hmem
    cases hmem
  | cons kv m2 ih =>
    intro d0 f w hnd hmem
    rw [List.map_cons, List.nodup_cons] at hnd
    rw [List.foldl_cons]
    rcases List.mem_cons.mp hmem with he | hm2
    · have hkv : kv = (f, w) := he.symm
      subst hkv
      rw [dbGet_foldPut_untouched]
      · rw [dbGet_dbPut, if_pos rfl]
      · intro kv2 hkv2 heq
        have hf : f = kv2.1 := encodeFieldKey_inj_f.mp heq
        have hin : kv2.1 ∈ m2.map Prod.fst := List.mem_map.mpr ⟨kv2, hkv2, rfl⟩
        rw [← hf] at hin
        exact hnd.1 hin
    · exact ih _ f w hnd.2 hm2

theorem dbGet_PutHash_mem (db : DB) (k : Bytes) (t : Nat) (m : GoMap) (f w : Bytes)
    (hnd : (m.map Prod.fst).Nodup) (hmem : (f, w) ∈ m) :
    dbGet (PutHash db k t m) (encodeFieldKey k f) = some w :=
  dbGet_foldPut_mem k m _ f w hnd hmem

theorem dbGet_PutHash_single (db : DB) (k : Bytes) (t : Nat) (f w : Bytes) :
    dbGet (PutHash db k t [(f, w)]) (encodeFieldKey k f) = some w := by
  unfold PutHash
  rw [List.foldl_cons, List.foldl_nil, dbGet_dbPut, if_pos rfl]

theorem wrongTipe_PutHash_self (db : DB) (k : Bytes) (m : GoMap) :
    wrongTipe (PutHash db k respHash m) k = false := by
  unfold wrongTipe
  rw [dbHas_PutHash, if_pos rfl]
  simp

theorem dbHas_PutHash_self (db : DB) (k : Bytes) (t : Nat) (m : GoMap) :
    dbHas (PutHash db k t m) k = some t := by
  rw [dbHas_PutHash, if_pos rfl]

/-! ### Claims -/

/-- Claim C7, counterexample: a total argument count of 1 is odd, yet
`hmset` (multi-set) replies WrongNumberOfArguments, contradicting "replies
WrongNumberOfArguments if and only if its total argument count is not
odd". -/
theorem C7_counterexample :
    ([[107]] : Args).length % 2 = 1 ∧
    hmset [[107]] [] = some (.errWrongNumber "hmset", []) := by
  constructor
  · rfl
  · rfl

/-- Claim C7 (amended): `hmset` replies WrongNumberOfArguments iff the total
argument count is even or equals 1 (an odd count of at least 3 is required);
with a valid shape it replies OK and atomically writes all given field/value
pairs when the key does not hold another type, and replies WrongType
otherwise. -/
theorem C7_hmset_arity (v : Args) (db : DB) :
    (v.length ≤ 1 ∨ v.length % 2 ≠ 1 →
      hmset v db = some (.errWrongNumber "hmset", db)) ∧
    (v.length % 2 = 1 → 2 ≤ v.length → ∀ k, v[0]? = some k →
      (wrongTipe db k = true → hmset v db = some (.errWrongType, db)) ∧
      (wrongTipe db k = false →
        hmset v db = some (.ok, PutHash db k respHash (insPairs [] (v.drop 1))) ∧
        ∀ f w, (f, w) ∈ insPairs [] (v.drop 1) →
          dbGet (PutHash db k respHash (insPairs [] (v.drop 1))) (encodeFieldKey k f)
            = some w)) := by
  constructor
  · intro h
    unfold hmset
    rw [if_pos (by simp; omega)]
  · intro hodd hlen k hk
    have h1 : ¬ v.length ≤ 1 := by omega
    have hcond : ¬ ((v.length ≤ 1 || v.length % 2 != 1) = true) := by
      simp [h1, hodd]
    unfold hmset
    rw [if_neg hcond, hk]
    dsimp only
    constructor
    · intro hwt
      rw [hwt]
      rfl
    · intro hwt
      rw [hwt]
      refine ⟨rfl, ?_⟩
      intro f w hm
      exact dbGet_PutHash_mem db k respHash _ f w
        (insPairs_keys_nodup (v.drop 1) [] (by simp)) hm

/-- Claim C7, witness for the amended theorem. -/
theorem C7_hmset_arity_witness :
    hmset [[107], [102], [118]] [] = some (.errWrongNumber "hmset", []) ∨
    hmset [[107], [102], [118]] []
      = some (.ok, PutHash [] [107] respHash (insPairs [] [[102], [118]])) :=
  Or.inr (((C7_hmset_arity [[107], [102], [118]] []).2 (by decide) (by decide)
    [107] rfl).2 rfl).1

/-- Claim C8: in increment-float, a parse failure of the delta argument is
reported as the NotValidInteger error, a parse failure of the currently
stored field value as the NotValidFloat error, and in both failure cases the
store is unchanged. -/
theorem C8_hincrbyfloat_errors (fo : FloatOps) (k f dArg : Bytes) (db : DB) :
    (fo.parseOk dArg = false →
      hincrbyfloat fo [k, f, dArg] db = some (.errNotValidInt, db)) ∧
    (fo.parseOk dArg = true → wrongTipe db k = false →
      (ldbGetD db (encodeFieldKey k f)).length ≠ 0 →
      fo.parseOk (ldbGetD db (encodeFieldKey k f)) = false →
      hincrbyfloat fo [k, f, dArg] db = some (.errNotValidFloat, db)) := by
  constructor
  · intro hd
    unfold hincrbyfloat
    simp only [List.getElem?_cons_succ, List.getElem?_cons_zero]
    rw [if_pos (by simp [hd])]
  · intro hd hwt hne hs
    unfold hincrbyfloat
    simp only [List.getElem?_cons_succ, List.getElem?_cons_zero]
    rw [if_neg (by simp [hd]), if_neg (by simp [hwt])]
    rw [GetFields_single, mapGet_single]
    rw [if_neg (by simpa using hne), if_pos (by simp [hs])]

/-- Claim C8, witness. -/
theorem C8_hincrbyfloat_errors_witness :
    hincrbyfloat foSample [[107], [102], [120]] [] = some (.errNotValidInt, []) ∧
    hincrbyfloat foSample [[107], [102], [50]]
        [([43, 107], [2]), ([45, 107, 124, 102], [120])]
      = some (.errNotValidFloat, [([43, 107], [2]), ([45, 107, 124, 102], [120])]) :=
  ⟨(C8_hincrbyfloat_errors foSample [107] [102] [120] []).1 (by decide),
   (C8_hincrbyfloat_errors foSample [107] [102] [50]
      [([43, 107], [2]), ([45, 107, 124, 102], [120])]).2
     (by decide) (by decide) (by decide) (by decide)⟩

/-- Claim C4, counterexample: increment-integer does not always store
`current + delta`: Go int64 addition wraps, so incrementing a field holding
9223372036854775807 (the maximum signed 64-bit value) by 1 replies the
wrapped value -9223372036854775808 instead of 9223372036854775808. -/
theorem C4_counterexample :
    (hincrby [[107], [102], [49]]
        [([43, 107], [2]),
         ([45, 107, 124, 102],
          [57, 50, 50, 51, 51, 55, 50, 48, 51, 54, 56, 53, 52, 55, 55, 53, 56, 48, 55])]).map
        Prod.fst
      = some (.ints (-9223372036854775808)) ∧
    (-9223372036854775808 : Int) ≠ 9223372036854775807 + 1 := by
  constructor
  · decide
  · decide

/-- Claim C4 (amended): on a key that does not hold another type,
increment-integer replies NotValidInteger leaving the store untouched when
the delta fails signed 64-bit base-10 parsing (checked before anything else)
or when the non-empty stored value fails that parsing; otherwise, treating
an absent field (or a stored empty value) as 0, it stores the two's-
complement-wrapped 64-bit sum as its canonical decimal string and replies
with that integer.  On a key of another type (with a parseable delta) it
replies WrongType instead. -/
theorem C4_hincrby (db : DB) (k f dArg : Bytes) :
    (parseInt64 dArg = none → hincrby [k, f, dArg] db = some (.errNotValidInt, db)) ∧
    (∀ d : Int, parseInt64 dArg = some d →
      (wrongTipe db k = true → hincrby [k, f, dArg] db = some (.errWrongType, db)) ∧
      (wrongTipe db k = false →
        (ldbGetD db (encodeFieldKey k f) = [] →
          hincrby [k, f, dArg] db
            = some (.ints d, PutHash db k respHash [(f, formatInt64 d)])) ∧
        (ldbGetD db (encodeFieldKey k f) ≠ [] →
          (parseInt64 (ldbGetD db (encodeFieldKey k f)) = none →
            hincrby [k, f, dArg] db = some (.errNotValidInt, db)) ∧
          (∀ c : Int, parseInt64 (ldbGetD db (encodeFieldKey k f)) = some c →
            hincrby [k, f, dArg] db
              = some (.ints (wrap64 (c + d)),
                  PutHash db k respHash [(f, formatInt64 (wrap64 (c + d)))]))))) := by
  constructor
  · intro hd
    unfold hincrby
    simp only [List.getElem?_cons_succ, List.getElem?_cons_zero, hd]
  · intro d hd
    constructor
    · intro hwt
      unfold hincrby
      simp only [List.getElem?_cons_succ, List.getElem?_cons_zero, hd]
      rw [hwt]
      rfl
    · intro hwt
      constructor
      · intro habs
        unfold hincrby
        simp only [List.getElem?_cons_succ, List.getElem?_cons_zero, hd]
        rw [hwt, GetFields_single, mapGet_single, mapPut_single, habs]
        rfl
      · intro hne
        have hlen : ((ldbGetD db (encodeFieldKey k f)).length == 0) = false := by
          simp only [beq_eq_false_iff_ne, ne_eq]
          intro h
          exact hne (List.eq_nil_of_length_eq_zero h)
        constructor
        · intro hsp
          unfold hincrby
          simp only [List.getElem?_cons_succ, List.getElem?_cons_zero, hd]
          rw [hwt, GetFields_single, mapGet_single, hlen, hsp]
          rfl
        · intro c hsp
          unfold hincrby
          simp only [List.getElem?_cons_succ, List.getElem?_cons_zero, hd]
          rw [hwt, GetFields_single, mapGet_single, hlen]
          simp only [hsp]
          rw [mapPut_single, mapPut_single]
          rfl

/-- Claim C4, witness for the amended theorem: incrementing an absent field
by 5 stores "5" and replies 5. -/
theorem C4_hincrby_witness :
    hincrby [[107], [102], [53]] []
      = some (.ints 5, PutHash [] [107] respHash [([102], formatInt64 5)]) :=
  (((C4_hincrby [] [107] [102] [53]).2 5 (by decide)).2 (by decide)).1 (by decide)

/-- Claim C2, counterexample: the claim fails for keys containing the
separator byte: after set("a", "b|f", "v"), the key "a|b" has no metadata
entry, yet field-exists("a|b", "f") point-reads the entry `-a|b|f` (which
encodes both ("a", "b|f") and ("a|b", "f")) and replies 1 instead of the
empty/absent result 0. -/
theorem C2_counterexample :
    dbHas [([45, 97, 124, 98, 124, 102], [118]), ([43, 97], [2])] [97, 124, 98]
      = none ∧
    hset [[97], [98, 124, 102], [118]] []
      = some (.ints 1, [([45, 97, 124, 98, 124, 102], [118]), ([43, 97], [2])]) ∧
    hexists [[97, 124, 98], [102]]
        [([45, 97, 124, 98, 124, 102], [118]), ([43, 97], [2])]
      = some (.ints 1,
          [([45, 97, 124, 98, 124, 102], [118]), ([43, 97], [2])]) := by
  refine ⟨?_, ?_, ?_⟩
  · decide
  · decide
  · decide

/-- Claim C2 (amended): for every separator-free key with no metadata
entry, in a store satisfying the metadata/field invariant on separator-free
keys, length, field-get, get-all, field-keys, field-values, string-length,
field-exists and field-delete all reply with their empty/absent result —
never an error — and leave the store unchanged.  (Only field-exists needs
the restriction: it reads field entries without checking key existence, so
a key containing the separator can see another key's entry.) -/
theorem C2_absent_key (db : DB) (k f : Bytes) (fs : List Bytes)
    (hinv : HashInv db) (hk : sepFree k) (habs : dbHas db k = none) (hfs : fs ≠ []) :
    hlen [k] db = some (.ints 0, db) ∧
    hget [k, f] db = some (.nilBulk, db) ∧
    hgetall [k] db = some (.arr [], db) ∧
    hkeys [k] db = some (.arr [], db) ∧
    hvals [k] db = some (.arr [], db) ∧
    hstrlen [k, f] db = some (.ints 0, db) ∧
    hexists [k, f] db = some (.ints 0, db) ∧
    hdel (k :: fs) db = some (.ints 0, db) := by
  have hwt : wrongTipe db k = false := by
    unfold wrongTipe
    rw [habs]
  have hmi : metaIsHash db k = false := by
    unfold metaIsHash
    rw [habs]
  have hfe : hasFieldEntry db k = false := by
    rw [← hinv k hk]
    exact hmi
  have hval : ldbGetD db (encodeFieldKey k f) = [] := by
    unfold ldbGetD
    rw [dbGet_field_eq_none db k f hfe]
    rfl
  refine ⟨?_, ?_, ?_, ?_, ?_, ?_, ?_, ?_⟩
  · unfold hlen
    simp only [List.getElem?_cons_zero]
    rw [habs]
  · unfold hget
    simp only [List.getElem?_cons_succ, List.getElem?_cons_zero]
    rw [habs]
  · unfold hgetall
    simp only [List.getElem?_cons_zero]
    rw [habs]
  · unfold hkeys
    simp only [List.getElem?_cons_zero]
    rw [habs]
  · unfold hvals
    simp only [List.getElem?_cons_zero]
    rw [habs]
  · unfold hstrlen
    simp only [List.getElem?_cons_succ, List.getElem?_cons_zero]
    rw [habs]
  · unfold hexists
    simp only [List.getElem?_cons_succ, List.getElem?_cons_zero]
    rw [hwt, GetFields_single, mapGet_single, hval]
    rfl
  · unfold hdel
    have hlen2 : ¬ ((k :: fs).length < 2) := by
      have hpos : 0 < fs.length := List.length_pos.mpr hfs
      simp only [List.length_cons]
      omega
    rw [if_neg hlen2]
    simp only [List.getElem?_cons_zero]
    rw [habs]

/-- Claim C2, witness. -/
theorem C2_absent_key_witness :
    hlen [[107]] [] = some (.ints 0, []) ∧
    hget [[107], [102]] [] = some (.nilBulk, []) ∧
    hgetall [[107]] [] = some (.arr [], []) ∧
    hkeys [[107]] [] = some (.arr [], []) ∧
    hvals [[107]] [] = some (.arr [], []) ∧
    hstrlen [[107], [102]] [] = some (.ints 0, []) ∧
    hexists [[107], [102]] [] = some (.ints 0, []) ∧
    hdel [[107], [102]] [] = some (.ints 0, []) :=
  C2_absent_key [] [107] [102] [[102]] (fun _ _ => rfl) (by decide) rfl
    (by decide)

/-! ### Argument-shape safety -/

theorem isSome_ite {P : Prop} [Decidable P] (x y : Option (Reply × DB))
    (hx : x.isSome = true) (hy : y.isSome = true) :
    (if P then x else y).isSome = true := by
  by_cases h : P <;> simp [h, hx, hy]

theorem exists_getElem?_of_lt (v : Args) (i : Nat) (h : i < v.length) :
    ∃ a, v[i]? = some a := ⟨v[i], List.getElem?_eq_getElem h⟩

/-- Claim C9: the dispatch layer validates the argument shape before any
lock or storage access, replying WrongNumberOfArguments naming the command
when the shape is invalid; for every shape-valid argument list no handler
accesses an out-of-range argument position (a `none` result of `runCmd`
marks exactly such an access). -/
theorem C9_arity_safe (fo : FloatOps) (c : HCmd) (v : Args) (db : DB) :
    (arityOk c v.length = true → (runCmd fo c v db).isSome = true) ∧
    (arityOk c v.length = false →
      dispatch fo c v db = some (.errWrongNumber (cmdName c), db)) := by
  constructor
  · intro h
    cases c with
    | hdel =>
      have h2 : 2 ≤ v.length := by simpa [arityOk] using h
      obtain ⟨k, hk⟩ := exists_getElem?_of_lt v 0 (by omega)
      unfold runCmd hdel
      apply isSome_ite
      · rfl
      · simp only [hk]
        cases hdb : dbHas db k
        · rfl
        · exact isSome_ite _ _ rfl rfl
    | hexists =>
      have h2 : v.length = 2 := by simpa [arityOk] using h
      obtain ⟨k, hk⟩ := exists_getElem?_of_lt v 0 (by omega)
      obtain ⟨f, hf⟩ := exists_getElem?_of_lt v 1 (by omega)
      unfold runCmd hexists
      simp only [hk]
      apply isSome_ite
      · rfl
      · simp only [hf]
        exact isSome_ite _ _ rfl rfl
    | hget =>
      have h2 : v.length = 2 := by simpa [arityOk] using h
      obtain ⟨k, hk⟩ := exists_getElem?_of_lt v 0 (by omega)
      obtain ⟨f, hf⟩ := exists_getElem?_of_lt v 1 (by omega)
      unfold runCmd hget
      simp only [hk]
      cases hdb : dbHas db k
      · rfl
      · apply isSome_ite
        · rfl
        · simp only [hf]
          exact isSome_ite _ _ rfl rfl
    | hgetall =>
      have h2 : v.length = 1 := by simpa [arityOk] using h
      obtain ⟨k, hk⟩ := exists_getElem?_of_lt v 0 (by omega)
      unfold runCmd hgetall
      simp only [hk]
      cases hdb : dbHas db k
      · rfl
      · exact isSome_ite _ _ rfl rfl
    | hincrby =>
      have h2 : v.length = 3 := by simpa [arityOk] using h
      obtain ⟨k, hk⟩ := exists_getElem?_of_lt v 0 (by omega)
      obtain ⟨f, hf⟩ := exists_getElem?_of_lt v 1 (by omega)
      obtain ⟨dA, hdA⟩ := exists_getElem?_of_lt v 2 (by omega)
      unfold runCmd hincrby
      simp only [hdA]
      cases hp : parseInt64 dA
      · rfl
      · simp only [hk]
        apply isSome_ite
        · rfl
        · simp only [hf]
          apply isSome_ite
          · rfl
          · cases hsp : parseInt64 (mapGet (GetFields db k [f]) f) <;> rfl
    | hincrbyfloat =>
      have h2 : v.length = 3 := by simpa [arityOk] using h
      obtain ⟨k, hk⟩ := exists_getElem?_of_lt v 0 (by omega)
      obtain ⟨f, hf⟩ := exists_getElem?_of_lt v 1 (by omega)
      obtain ⟨dA, hdA⟩ := exists_getElem?_of_lt v 2 (by omega)
      unfold runCmd hincrbyfloat
      simp only [hdA]
      apply isSome_ite
      · rfl
      · simp only [hk]
        apply isSome_ite
        · rfl
        · simp only [hf]
          apply isSome_ite
          · rfl
          · exact isSome_ite _ _ rfl rfl
    | hkeys =>
      have h2 : v.length = 1 := by simpa [arityOk] using h
      obtain ⟨k, hk⟩ := exists_getElem?_of_lt v 0 (by omega)
      unfold runCmd hkeys
      simp only [hk]
      cases hdb : dbHas db k
      · rfl
      · exact isSome_ite _ _ rfl rfl
    | hvals =>
      have h2 : v.length = 1 := by simpa [arityOk] using h
      obtain ⟨k, hk⟩ := exists_getElem?_of_lt v 0 (by omega)
      unfold runCmd hvals
      simp only [hk]
      cases hdb : dbHas db k
      · rfl
      · exact isSome_ite _ _ rfl rfl
    | hlen =>
      have h2 : v.length = 1 := by simpa [arityOk] using h
      obtain ⟨k, hk⟩ := exists_getElem?_of_lt v 0 (by omega)
      unfold runCmd hlen
      simp only [hk]
      cases hdb : dbHas db k
      · rfl
      · exact isSome_ite _ _ rfl rfl
    | hmget =>
      have h2 : 2 ≤ v.length := by simpa [arityOk] using h
      obtain ⟨k, hk⟩ := exists_getElem?_of_lt v 0 (by omega)
      unfold runCmd hmget
      apply isSome_ite
      · rfl
      · simp only [hk]
        exact isSome_ite _ _ rfl rfl
    | hmset =>
      have h2 : 3 ≤ v.length := by simpa [arityOk] using h
      obtain ⟨k, hk⟩ := exists_getElem?_of_lt v 0 (by omega)
      unfold runCmd hmset
      apply isSome_ite
      · rfl
      · simp only [hk]
        exact isSome_ite _ _ rfl rfl
    | hset =>
      have h2 : v.length = 3 := by simpa [arityOk] using h
      obtain ⟨k, hk⟩ := exists_getElem?_of_lt v 0 (by omega)
      obtain ⟨f, hf⟩ := exists_getElem?_of_lt v 1 (by omega)
      obtain ⟨w, hw⟩ := exists_getElem?_of_lt v 2 (by omega)
      unfold runCmd hset
      simp only [hk]
      apply isSome_ite
      · rfl
      · simp only [hf, hw]
        exact isSome_ite _ _ rfl rfl
    | hsetnx =>
      have h2 : v.length = 3 := by simpa [arityOk] using h
      obtain ⟨k, hk⟩ := exists_getElem?_of_lt v 0 (by omega)
      obtain ⟨f, hf⟩ := exists_getElem?_of_lt v 1 (by omega)
      obtain ⟨w, hw⟩ := exists_getElem?_of_lt v 2 (by omega)
      unfold runCmd hsetnx
      simp only [hk]
      apply isSome_ite
      · rfl
      · simp only [hf]
        apply isSome_ite
        · simp only [hw]
          rfl
        · rfl
    | hstrlen =>
      have h2 : v.length = 2 := by simpa [arityOk] using h
      obtain ⟨k, hk⟩ := exists_getElem?_of_lt v 0 (by omega)
      obtain ⟨f, hf⟩ := exists_getElem?_of_lt v 1 (by omega)
      unfold runCmd hstrlen
      simp only [hk]
      cases hdb : dbHas db k
      · rfl
      · apply isSome_ite
        · rfl
        · simp only [hf]
          rfl
  · intro h
    unfold dispatch
    rw [if_neg (by simp [h])]

/-- Claim C9, witness. -/
theorem C9_arity_safe_witness :
    (runCmd foSample .hget [[107], [102]] []).isSome = true ∧
    dispatch foSample .hget [[107]] [] = some (.errWrongNumber "hget", []) :=
  ⟨(C9_arity_safe foSample .hget [[107], [102]] []).1 (by decide),
   (C9_arity_safe foSample .hget [[107]] []).2 (by decide)⟩

/-! ### Store effects of the handlers -/

theorem mapPut_ne_nil (m : GoMap) (q w : Bytes) : mapPut m q w ≠ [] := by
  unfold mapPut
  split
  · intro he
    rename_i hany
    rw [List.map_eq_nil_iff] at he
    subst he
    cases hany
  · simp

theorem insPairs_ne_nil : ∀ (l : List Bytes) (m : GoMap), m ≠ [] → insPairs m l ≠ []
  | [], _, h => h
  | [_], _, h => h
  | _ :: w :: r, m, _ => insPairs_ne_nil r _ (mapPut_ne_nil m _ w)

/-- Every handler either leaves the store unchanged, or performs one
`PutHash` of a nonempty hash-typed map on its key argument after the
wrong-type check passed, or performs `DeleteFields` on its key argument
after the metadata was seen to mark the hash type. -/
theorem runCmd_effects (fo : FloatOps) (c : HCmd) (v : Args) (db : DB)
    (r : Reply) (db2 : DB) (h : runCmd fo c v db = some (r, db2)) :
    db2 = db ∨
    (∃ k m, v[0]? = some k ∧ wrongTipe db k = false ∧ m ≠ [] ∧
      db2 = PutHash db k respHash m) ∨
    (∃ k fs2, v[0]? = some k ∧ dbHas db k = some respHash ∧
      db2 = DeleteFields db k fs2) := by
  cases c with
  | hdel =>
    replace h : hdel v db = some (r, db2) := h
    unfold hdel at h
    by_cases hl : v.length < 2
    · rw [if_pos hl] at h
      simp only [Option.some.injEq, Prod.mk.injEq] at h
      exact Or.inl h.2.symm
    · rw [if_neg hl] at h
      cases hv0 : v[0]? with
      | none => simp only [hv0] at h; exact Option.noConfusion h
      | some k =>
        simp only [hv0] at h
        cases hdb : dbHas db k with
        | none =>
          simp only [hdb, Option.some.injEq, Prod.mk.injEq] at h
          exact Or.inl h.2.symm
        | some t =>
          simp only [hdb] at h
          by_cases ht : (t != respHash) = true
          · rw [if_pos ht] at h
            simp only [Option.some.injEq, Prod.mk.injEq] at h
            exact Or.inl h.2.symm
          · rw [if_neg ht] at h
            simp only [Option.some.injEq, Prod.mk.injEq] at h
            refine Or.inr (Or.inr ⟨k, v.drop 1, rfl, ?_, h.2.symm⟩)
            rw [hdb]
            simp only [Bool.not_eq_true, bne_eq_false_iff_eq] at ht
            rw [ht]
  | hexists =>
    replace h : hexists v db = some (r, db2) := h
    unfold hexists at h
    cases hv0 : v[0]? with
    | none => simp only [hv0] at h; exact Option.noConfusion h
    | some k =>
      simp only [hv0] at h
      by_cases hwt : wrongTipe db k = true
      · simp only [hwt, if_pos] at h
        simp only [Option.some.injEq, Prod.mk.injEq] at h
        exact Or.inl h.2.symm
      · simp only [Bool.not_eq_true] at hwt
        simp only [hwt] at h
        rw [if_neg Bool.false_ne_true] at h
        cases hv1 : v[1]? with
        | none => simp only [hv1] at h; exact Option.noConfusion h
        | some f =>
          simp only [hv1] at h
          split at h <;>
            (simp only [Option.some.injEq, Prod.mk.injEq] at h
             exact Or.inl h.2.symm)
  | hget =>
    replace h : hget v db = some (r, db2) := h
    unfold hget at h
    cases hv0 : v[0]? with
    | none => simp only [hv0] at h; exact Option.noConfusion h
    | some k =>
      simp only [hv0] at h
      cases hdb : dbHas db k with
      | none =>
        simp only [hdb, Option.some.injEq, Prod.mk.injEq] at h
        exact Or.inl h.2.symm
      | some t =>
        simp only [hdb] at h
        by_cases ht : (t != respHash) = true
        · rw [if_pos ht] at h
          simp only [Option.some.injEq, Prod.mk.injEq] at h
          exact Or.inl h.2.symm
        · rw [if_neg ht] at h
          cases hv1 : v[1]? with
          | none => simp only [hv1] at h; exact Option.noConfusion h
          | some f =>
            simp only [hv1] at h
            split at h <;>
              (simp only [Option.some.injEq, Prod.mk.injEq] at h
               exact Or.inl h.2.symm)
  | hgetall =>
    replace h : hgetall v db = some (r, db2) := h
    unfold hgetall at h
    cases hv0 : v[0]? with
    | none => simp only [hv0] at h; exact Option.noConfusion h
    | some k =>
      simp only [hv0] at h
      cases hdb : dbHas db k with
      | none =>
        simp only [hdb, Option.some.injEq, Prod.mk.injEq] at h
        exact Or.inl h.2.symm
      | some t =>
        simp only [hdb] at h
        split at h <;>
          (simp only [Option.some.injEq, Prod.mk.injEq] at h
           exact Or.inl h.2.symm)
  | hincrby =>
    replace h : hincrby v db = some (r, db2) := h
    unfold hincrby at h
    cases hv2 : v[2]? with
    | none => simp only [hv2] at h; exact Option.noConfusion h
    | some dA =>
      simp only [hv2] at h
      cases hp : parseInt64 dA with
      | none =>
        simp only [hp, Option.some.injEq, Prod.mk.injEq] at h
        exact Or.inl h.2.symm
      | some d =>
        simp only [hp] at h
        cases hv0 : v[0]? with
        | none => simp only [hv0] at h; exact Option.noConfusion h
        | some k =>
          simp only [hv0] at h
          by_cases hwt : wrongTipe db k = true
          · simp only [hwt, if_pos] at h
            simp only [Option.some.injEq, Prod.mk.injEq] at h
            exact Or.inl h.2.symm
          · simp only [Bool.not_eq_true] at hwt
            simp only [hwt] at h
            rw [if_neg Bool.false_ne_true] at h
            cases hv1 : v[1]? with
            | none => simp only [hv1] at h; exact Option.noConfusion h
            | some f =>
              simp only [hv1] at h
              split at h
              · simp only [Option.some.injEq, Prod.mk.injEq] at h
                exact Or.inr (Or.inl ⟨k, _, rfl, hwt, mapPut_ne_nil _ _ _, h.2.symm⟩)
              · cases hsp : parseInt64 (mapGet (GetFields db k [f]) f) with
                | none =>
                  simp only [hsp, Option.some.injEq, Prod.mk.injEq] at h
                  exact Or.inl h.2.symm
                | some c =>
                  simp only [hsp, Option.some.injEq, Prod.mk.injEq] at h
                  exact Or.inr (Or.inl ⟨k, _, rfl, hwt, mapPut_ne_nil _ _ _, h.2.symm⟩)
  | hincrbyfloat =>
    replace h : hincrbyfloat fo v db = some (r, db2) := h
    unfold hincrbyfloat at h
    cases hv2 : v[2]? with
    | none => simp only [hv2] at h; exact Option.noConfusion h
    | some dA =>
      simp only [hv2] at h
      by_cases hpd : (!fo.parseOk dA) = true
      · rw [if_pos hpd] at h
        simp only [Option.some.injEq, Prod.mk.injEq] at h
        exact Or.inl h.2.symm
      · rw [if_neg hpd] at h
        cases hv0 : v[0]? with
        | none => simp only [hv0] at h; exact Option.noConfusion h
        | some k =>
          simp only [hv0] at h
          by_cases hwt : wrongTipe db k = true
          · simp only [hwt, if_pos] at h
            simp only [Option.some.injEq, Prod.mk.injEq] at h
            exact Or.inl h.2.symm
          · simp only [Bool.not_eq_true] at hwt
            simp only [hwt] at h
            rw [if_neg Bool.false_ne_true] at h
            cases hv1 : v[1]? with
            | none => simp only [hv1] at h; exact Option.noConfusion h
            | some f =>
              simp only [hv1] at h
              split at h
              · simp only [Option.some.injEq, Prod.mk.injEq] at h
                exact Or.inr (Or.inl ⟨k, _, rfl, hwt, mapPut_ne_nil _ _ _, h.2.symm⟩)
              · split at h
                · simp only [Option.some.injEq, Prod.mk.injEq] at h
                  exact Or.inl h.2.symm
                · simp only [Option.some.injEq, Prod.mk.injEq] at h
                  exact Or.inr (Or.inl ⟨k, _, rfl, hwt, mapPut_ne_nil _ _ _, h.2.symm⟩)
  | hkeys =>
    replace h : hkeys v db = some (r, db2) := h
    unfold hkeys at h
    cases hv0 : v[0]? with
    | none => simp only [hv0] at h; exact Option.noConfusion h
    | some k =>
      simp only [hv0] at h
      cases hdb : dbHas db k with
      | none =>
        simp only [hdb, Option.some.injEq, Prod.mk.injEq] at h
        exact Or.inl h.2.symm
      | some t =>
        simp only [hdb] at h
        split at h <;>
          (simp only [Option.some.injEq, Prod.mk.injEq] at h
           exact Or.inl h.2.symm)
  | hvals =>
    replace h : hvals v db = some (r, db2) := h
    unfold hvals at h
    cases hv0 : v[0]? with
    | none => simp only [hv0] at h; exact Option.noConfusion h
    | some k =>
      simp only [hv0] at h
      cases hdb : dbHas db k with
      | none =>
        simp only [hdb, Option.some.injEq, Prod.mk.injEq] at h
        exact Or.inl h.2.symm
      | some t =>
        simp only [hdb] at h
        split at h <;>
          (simp only [Option.some.injEq, Prod.mk.injEq] at h
           exact Or.inl h.2.symm)
  | hlen =>
    replace h : hlen v db = some (r, db2) := h
    unfold hlen at h
    cases hv0 : v[0]? with
    | none => simp only [hv0] at h; exact Option.noConfusion h
    | some k =>
      simp only [hv0] at h
      cases hdb : dbHas db k with
      | none =>
        simp only [hdb, Option.some.injEq, Prod.mk.injEq] at h
        exact Or.inl h.2.symm
      | some t =>
        simp only [hdb] at h
        split at h <;>
          (simp only [Option.some.injEq, Prod.mk.injEq] at h
           exact Or.inl h.2.symm)
  | hmget =>
    replace h : hmget v db = some (r, db2) := h
    unfold hmget at h
    by_cases hl : v.length < 2
    · rw [if_pos hl] at h
      simp only [Option.some.injEq, Prod.mk.injEq] at h
      exact Or.inl h.2.symm
    · rw [if_neg hl] at h
      cases hv0 : v[0]? with
      | none => simp only [hv0] at h; exact Option.noConfusion h
      | some k =>
        simp only [hv0] at h
        split at h <;>
          (simp only [Option.some.injEq, Prod.mk.injEq] at h
           exact Or.inl h.2.symm)
  | hmset =>
    replace h : hmset v db = some (r, db2) := h
    unfold hmset at h
    by_cases hl : (v.length ≤ 1 || v.length % 2 != 1) = true
    · rw [if_pos hl] at h
      simp only [Option.some.injEq, Prod.mk.injEq] at h
      exact Or.inl h.2.symm
    · rw [if_neg hl] at h
      cases hv0 : v[0]? with
      | none => simp only [hv0] at h; exact Option.noConfusion h
      | some k =>
        simp only [hv0] at h
        by_cases hwt : wrongTipe db k = true
        · simp only [hwt, if_pos] at h
          simp only [Option.some.injEq, Prod.mk.injEq] at h
          exact Or.inl h.2.symm
        · simp only [Bool.not_eq_true] at hwt
          simp only [hwt] at h
          rw [if_neg Bool.false_ne_true] at h
          simp only [Option.some.injEq, Prod.mk.injEq] at h
          refine Or.inr (Or.inl ⟨k, _, rfl, hwt, ?_, h.2.symm⟩)
          have hl2 : 3 ≤ v.length := by
            simp only [Bool.or_eq_true, not_or, decide_eq_true_eq, bne,
              Bool.not_eq_true, Bool.not_eq_false] at hl
            have h1 := hl.1
            have h2 : v.length % 2 = 1 := by
              have := hl.2
              simpa using this
            omega
          have hd2 : 2 ≤ (v.drop 1).length := by
            rw [List.length_drop]
            omega
          cases hdrop : v.drop 1 with
          | nil => rw [hdrop] at hd2; simp at hd2
          | cons f rest =>
            cases rest with
            | nil => rw [hdrop] at hd2; simp at hd2
            | cons w rest2 =>
              exact insPairs_ne_nil rest2 _ (mapPut_ne_nil [] f w)
  | hset =>
    replace h : hset v db = some (r, db2) := h
    unfold hset at h
    cases hv0 : v[0]? with
    | none => simp only [hv0] at h; exact Option.noConfusion h
    | some k =>
      simp only [hv0] at h
      by_cases hwt : wrongTipe db k = true
      · simp only [hwt, if_pos] at h
        simp only [Option.some.injEq, Prod.mk.injEq] at h
        exact Or.inl h.2.symm
      · simp only [Bool.not_eq_true] at hwt
        simp only [hwt] at h
        rw [if_neg Bool.false_ne_true] at h
        cases hv1 : v[1]? with
        | none => simp only [hv1] at h; exact Option.noConfusion h
        | some f =>
          simp only [hv1] at h
          cases hv2 : v[2]? with
          | none => simp only [hv2] at h; exact Option.noConfusion h
          | some w =>
            simp only [hv2] at h
            split at h <;>
              (simp only [Option.some.injEq, Prod.mk.injEq] at h
               exact Or.inr (Or.inl ⟨k, _, rfl, hwt, mapPut_ne_nil _ _ _, h.2.symm⟩))
  | hsetnx =>
    replace h : hsetnx v db = some (r, db2) := h
    unfold hsetnx at h
    cases hv0 : v[0]? with
    | none => simp only [hv0] at h; exact Option.noConfusion h
    | some k =>
      simp only [hv0] at h
      by_cases hwt : wrongTipe db k = true
      · simp only [hwt, if_pos] at h
        simp only [Option.some.injEq, Prod.mk.injEq] at h
        exact Or.inl h.2.symm
      · simp only [Bool.not_eq_true] at hwt
        simp only [hwt] at h
        rw [if_neg Bool.false_ne_true] at h
        cases hv1 : v[1]? with
        | none => simp only [hv1] at h; exact Option.noConfusion h
        | some f =>
          simp only [hv1] at h
          split at h
          · cases hv2 : v[2]? with
            | none => simp only [hv2] at h; exact Option.noConfusion h
            | some w =>
              simp only [hv2, Option.some.injEq, Prod.mk.injEq] at h
              exact Or.inr (Or.inl ⟨k, _, rfl, hwt, mapPut_ne_nil _ _ _, h.2.symm⟩)
          · simp only [Option.some.injEq, Prod.mk.injEq] at h
            exact Or.inl h.2.symm
  | hstrlen =>
    replace h : hstrlen v db = some (r, db2) := h
    unfold hstrlen at h
    cases hv0 : v[0]? with
    | none => simp only [hv0] at h; exact Option.noConfusion h
    | some k =>
      simp only [hv0] at h
      cases hdb : dbHas db k with
      | none =>
        simp only [hdb, Option.some.injEq, Prod.mk.injEq] at h
        exact Or.inl h.2.symm
      | some t =>
        simp only [hdb] at h
        by_cases ht : (t != respHash) = true
        · rw [if_pos ht] at h
          simp only [Option.some.injEq, Prod.mk.injEq] at h
          exact Or.inl h.2.symm
        · rw [if_neg ht] at h
          cases hv1 : v[1]? with
          | none => simp only [hv1] at h; exact Option.noConfusion h
          | some f =>
            simp only [hv1, Option.some.injEq, Prod.mk.injEq] at h
            exact Or.inl h.2.symm

/-- Claim C3, counterexample: on a key whose metadata holds a non-hash type
tag, increment-integer with an unparseable delta replies NotValidInteger,
not WrongType — the delta is parsed before the type check. -/
theorem C3_counterexample :
    wrongTipe [([43, 107], [9])] [107] = true ∧
    hincrby [[107], [102], [120]] [([43, 107], [9])]
      = some (.errNotValidInt, [([43, 107], [9])]) := by
  constructor
  · decide
  · decide

/-- Claim C3 (amended): a field-map command invoked on a key whose metadata
holds a different type never changes the store, and whenever its argument
shape is valid and, for the two increment commands, the delta argument
parses, its reply is exactly the WrongType error (with an unparseable delta
the increments reply NotValidInteger instead, and an invalid shape replies
WrongNumberOfArguments — in both cases still without mutating). -/
theorem C3_wrongType (fo : FloatOps) (c : HCmd) (v : Args) (db : DB)
    (k : Bytes) (hv0 : v[0]? = some k) (hwt : wrongTipe db k = true) :
    (∀ r db2, runCmd fo c v db = some (r, db2) → db2 = db) ∧
    (arityOk c v.length = true →
      (c = .hmset → v.length % 2 = 1) →
      (c = .hincrby → ∀ dA, v[2]? = some dA → parseInt64 dA ≠ none) →
      (c = .hincrbyfloat → ∀ dA, v[2]? = some dA → fo.parseOk dA = true) →
      runCmd fo c v db = some (.errWrongType, db)) := by
  constructor
  · intro r db2 hrun
    rcases runCmd_effects fo c v db r db2 hrun with he |
      ⟨k2, m, hv02, hwt2, -, -⟩ | ⟨k2, fs2, hv02, hhas2, -⟩
    · exact he
    · rw [hv0] at hv02
      injection hv02 with hk2
      subst hk2
      rw [hwt] at hwt2
      cases hwt2
    · rw [hv0] at hv02
      injection hv02 with hk2
      subst hk2
      unfold wrongTipe at hwt
      rw [hhas2] at hwt
      simp at hwt
  · intro har hodd hdint hdfloat
    obtain ⟨t, hdbv, htb⟩ : ∃ t, dbHas db k = some t ∧ (t != respHash) = true := by
      unfold wrongTipe at hwt
      cases hdbv : dbHas db k with
      | none =>
        rw [hdbv] at hwt
        exact absurd hwt (Bool.false_ne_true)
      | some t =>
        rw [hdbv] at hwt
        exact ⟨t, rfl, hwt⟩
    have hwt0 : wrongTipe db k = true := by
      unfold wrongTipe
      rw [hdbv]
      exact htb
    cases c with
    | hdel =>
      have h2 : 2 ≤ v.length := by simpa [arityOk] using har
      show hdel v db = some (.errWrongType, db)
      unfold hdel
      rw [if_neg (by omega)]
      simp only [hv0, hdbv, htb]
      rfl
    | hexists =>
      show hexists v db = some (.errWrongType, db)
      unfold hexists
      simp only [hv0]
      rw [if_pos hwt0]
    | hget =>
      show hget v db = some (.errWrongType, db)
      unfold hget
      simp only [hv0, hdbv, htb]
      rfl
    | hgetall =>
      show hgetall v db = some (.errWrongType, db)
      unfold hgetall
      simp only [hv0, hdbv, htb]
      rfl
    | hincrby =>
      have h3 : v.length = 3 := by simpa [arityOk] using har
      obtain ⟨dA, hdA⟩ := exists_getElem?_of_lt v 2 (by omega)
      obtain ⟨d, hp⟩ : ∃ d, parseInt64 dA = some d := by
        cases hp2 : parseInt64 dA with
        | none => exact absurd hp2 (hdint rfl dA hdA)
        | some d => exact ⟨d, rfl⟩
      show hincrby v db = some (.errWrongType, db)
      unfold hincrby
      simp only [hdA, hp, hv0]
      rw [if_pos hwt0]
    | hincrbyfloat =>
      have h3 : v.length = 3 := by simpa [arityOk] using har
      obtain ⟨dA, hdA⟩ := exists_getElem?_of_lt v 2 (by omega)
      have hpOk : fo.parseOk dA = true := hdfloat rfl dA hdA
      show hincrbyfloat fo v db = some (.errWrongType, db)
      unfold hincrbyfloat
      simp only [hdA]
      rw [if_neg (by simp [hpOk])]
      simp only [hv0]
      rw [if_pos hwt0]
    | hkeys =>
      show hkeys v db = some (.errWrongType, db)
      unfold hkeys
      simp only [hv0, hdbv, htb]
      rfl
    | hvals =>
      show hvals v db = some (.errWrongType, db)
      unfold hvals
      simp only [hv0, hdbv, htb]
      rfl
    | hlen =>
      show hlen v db = some (.errWrongType, db)
      unfold hlen
      simp only [hv0, hdbv, htb]
      rfl
    | hmget =>
      have h2 : 2 ≤ v.length := by simpa [arityOk] using har
      show hmget v db = some (.errWrongType, db)
      unfold hmget
      rw [if_neg (by omega)]
      simp only [hv0]
      rw [if_pos hwt0]
    | hmset =>
      have h2 : 3 ≤ v.length := by simpa [arityOk] using har
      have h1 : ¬ v.length ≤ 1 := by omega
      show hmset v db = some (.errWrongType, db)
      unfold hmset
      rw [if_neg (by simp [h1, hodd rfl])]
      simp only [hv0]
      rw [if_pos hwt0]
    | hset =>
      show hset v db = some (.errWrongType, db)
      unfold hset
      simp only [hv0]
      rw [if_pos hwt0]
    | hsetnx =>
      show hsetnx v db = some (.errWrongType, db)
      unfold hsetnx
      simp only [hv0]
      rw [if_pos hwt0]
    | hstrlen =>
      show hstrlen v db = some (.errWrongType, db)
      unfold hstrlen
      simp only [hv0, hdbv, htb]
      rfl

/-- Claim C3, witness: on a key whose metadata holds the non-hash tag 9,
field-get replies WrongType and leaves the store unchanged. -/
theorem C3_wrongType_witness :
    runCmd foSample .hget [[107], [102]] [([43, 107], [9])]
      = some (.errWrongType, [([43, 107], [9])]) :=
  (C3_wrongType foSample .hget [[107], [102]] [([43, 107], [9])] [107]
      (by decide) (by decide)).2 (by decide) (by decide) (by decide) (by decide)

theorem dbScan_dbDeleteKeys (db : DB) (ks : List Bytes) (p : Bytes) :
    dbScan (dbDeleteKeys db ks) p = dbDeleteKeys (dbScan db p) ks := by
  unfold dbScan dbDeleteKeys
  rw [List.filter_filter, List.filter_filter]
  exact List.filter_congr (fun x _ => by rw [Bool.and_comm])

theorem dbDeleteKeys_all (l : DB) (ks : List Bytes) (h : ∀ e ∈ l, e.1 ∈ ks) :
    dbDeleteKeys l ks = [] := by
  unfold dbDeleteKeys
  rw [List.filter_eq_nil_iff]
  intro e he
  simp only [Bool.not_eq_true]
  have hc : ks.contains e.1 = true := List.elem_iff.mpr (h e he)
  rw [hc]
  rfl

/-- Claim C1, counterexample: record keys may contain the separator byte,
and then the metadata/field-entry equivalence fails: after a single set on
key "a|b", the store holds a field entry lying in the range of record key
"a" while "a" has no metadata entry. -/
theorem C1_counterexample :
    ((hset [[97, 124, 98], [102], [118]] []).map
        (fun out => (hasFieldEntry out.2 [97], metaIsHash out.2 [97])))
      = some (true, false) := by
  decide

/-- Claim C1 (amended): restricted to separator-free record keys, the
invariant "a hash-type metadata entry exists iff at least one field entry
exists for the key" is preserved by every complete field-map command whose
key argument is separator-free; in particular field-delete covering every
remaining field entry of a hash key removes the metadata entry, after which
hasRecord reports the key absent and length replies 0. -/
theorem C1_meta_field_invariant (fo : FloatOps) :
    (∀ (c : HCmd) (v : Args) (db : DB) (r : Reply) (db2 : DB),
      HashInv db → keyArgOk v → runCmd fo c v db = some (r, db2) →
      HashInv db2) ∧
    (∀ (db : DB) (k : Bytes) (fs : List Bytes) (r : Reply) (db2 : DB),
      sepFree k → fs ≠ [] → wrongTipe db k = false →
      (∀ e ∈ dbScan db (encodeFieldKey k []),
        e.1 ∈ fs.map (fun f => encodeFieldKey k f)) →
      hdel (k :: fs) db = some (r, db2) →
      dbHas db2 k = none ∧ hlen [k] db2 = some (.ints 0, db2)) := by
  constructor
  · intro c v db r db2 hinv hkey hrun
    rcases runCmd_effects fo c v db r db2 hrun with rfl |
      ⟨k, m, hv0, hwtf, hm, rfl⟩ | ⟨k, fs2, hv0, hhas, rfl⟩
    · exact hinv
    · exact HashInv_PutHash db k m hinv (hkey k hv0) hm
    · refine HashInv_DeleteFields db k fs2 hinv (hkey k hv0) ?_
      unfold metaIsHash
      rw [hhas]
      simp
  · intro db k fs r db2 hk hfs hwt hcover h
    unfold hdel at h
    rw [if_neg (by
      have hpos : 0 < fs.length := List.length_pos.mpr hfs
      simp only [List.length_cons]
      omega)] at h
    simp only [List.getElem?_cons_zero] at h
    cases hdb : dbHas db k with
    | none =>
      simp only [hdb, Option.some.injEq, Prod.mk.injEq] at h
      obtain ⟨-, rfl⟩ := h
      constructor
      · exact hdb
      · unfold hlen
        simp only [List.getElem?_cons_zero]
        rw [hdb]
    | some t =>
      have hwt2 : (t != respHash) = false := by
        unfold wrongTipe at hwt
        rw [hdb] at hwt
        exact hwt
      simp only [hdb] at h
      rw [if_neg (by simp [hwt2])] at h
      simp only [Option.some.injEq, Prod.mk.injEq] at h
      obtain ⟨-, rfl⟩ := h
      have hscan : dbScan
          (dbDeleteKeys db ((k :: fs).drop 1 |>.map (fun f => encodeFieldKey k f)))
          (encodeFieldKey k []) = [] := by
        rw [dbScan_dbDeleteKeys]
        exact dbDeleteKeys_all _ _ (fun e he => hcover e he)
      have hdf : DeleteFields db k ((k :: fs).drop 1)
          = dbDeleteKeys
              (dbDeleteKeys db ((k :: fs).drop 1 |>.map (fun f => encodeFieldKey k f)))
              [encodeMetaKey k] := by
        unfold DeleteFields
        rw [if_pos hscan]
      have hnone : dbHas (DeleteFields db k ((k :: fs).drop 1)) k = none := by
        rw [hdf, dbHas_dbDeleteKeys_meta, if_pos rfl]
      constructor
      · exact hnone
      · unfold hlen
        simp only [List.getElem?_cons_zero]
        rw [hnone]

/-- Claim C1, witness for the amended theorem. -/
theorem C1_meta_field_invariant_witness :
    HashInv [([45, 107, 124, 102], [118]), ([43, 107], [2])] ∧
    (dbHas ([] : DB) [107] = none ∧ hlen [[107]] [] = some (.ints 0, [])) :=
  ⟨(C1_meta_field_invariant foSample).1 .hset [[107], [102], [118]] []
      (.ints 1) [([45, 107, 124, 102], [118]), ([43, 107], [2])]
      (fun _ _ => rfl)
      (fun k h => (Option.some.inj h) ▸ (by decide : sepFree [107]))
      (by decide),
   (C1_meta_field_invariant foSample).2
      [([45, 107, 124, 102], [118]), ([43, 107], [2])] [107] [[102]]
      (.ints 1) [] (by decide) (by decide) (by decide) (by decide) (by decide)⟩

/-! ### Decoding and round-trip membership -/

theorem mem_dbPut (d : DB) (a w : Bytes) (e : Bytes × Bytes) :
    e ∈ dbPut d a w ↔ e = (a, w) ∨ (e ∈ d ∧ e.1 ≠ a) := by
  unfold dbPut
  rw [List.mem_cons, List.mem_filter]
  simp

theorem mem_foldPut_nodup (key : Bytes) :
    ∀ (m : GoMap) (d0 : DB) (e : Bytes × Bytes),
      (m.map Prod.fst).Nodup →
      (e ∈ m.foldl (fun d kv => dbPut d (encodeFieldKey key kv.1) kv.2) d0 ↔
        (∃ fw ∈ m, e = (encodeFieldKey key fw.1, fw.2)) ∨
        (e ∈ d0 ∧ ∀ fw ∈ m, e.1 ≠ encodeFieldKey key fw.1)) := by
  intro m
  induction m with
  | nil =>
    intro d0 e _
    simp
  | cons kv m2 ih =>
    intro d0 e hnd
    rw [List.map_cons, List.nodup_cons] at hnd
    rw [List.foldl_cons, ih _ e hnd.2]
    constructor
    · rintro (⟨fw, hfw, rfl⟩ | ⟨hmem, hall⟩)
      · exact Or.inl ⟨fw, List.mem_cons_of_mem _ hfw, rfl⟩
      · rw [mem_dbPut] at hmem
        rcases hmem with rfl | ⟨hd0, hne⟩
        · exact Or.inl ⟨kv, List.mem_cons_self kv m2, rfl⟩
        · refine Or.inr ⟨hd0, ?_⟩
          intro fw hfw
          rcases List.mem_cons.mp hfw with rfl | h2
          · exact hne
          · exact hall fw h2
    · rintro (⟨fw, hfw, rfl⟩ | ⟨hd0, hall⟩)
      · rcases List.mem_cons.mp hfw with rfl | h2
        · refine Or.inr ⟨?_, ?_⟩
          · rw [mem_dbPut]
            exact Or.inl rfl
          · intro fw2 hfw2 heq
            have h3 : fw.1 = fw2.1 := encodeFieldKey_inj_f.mp heq
            exact hnd.1 (h3 ▸ List.mem_map.mpr ⟨fw2, hfw2, rfl⟩)
        · exact Or.inl ⟨fw, h2, rfl⟩
      · refine Or.inr ⟨?_, fun fw hfw => hall fw (List.mem_cons_of_mem _ hfw)⟩
        rw [mem_dbPut]
        exact Or.inr ⟨hd0, hall kv (List.mem_cons_self kv m2)⟩

theorem afterSep_append (f : Bytes) : ∀ l : Bytes, sepFree l →
    afterSep (l ++ sep :: f) = f := by
  intro l
  induction l with
  | nil =>
    intro _
    simp [afterSep]
  | cons b l2 ih =>
    intro h
    simp only [sepFree, List.mem_cons, not_or] at h
    rw [List.cons_append]
    unfold afterSep
    rw [if_neg (by simpa using fun e => h.1 e.symm)]
    exact ih h.2

theorem fieldFromKey_encode (k f : Bytes) (hk : sepFree k) :
    fieldFromKey (encodeFieldKey k f) = f := by
  have hrw : encodeFieldKey k f = (valuePfx :: k) ++ sep :: f := by
    simp [encodeFieldKey]
  unfold fieldFromKey
  rw [hrw]
  rw [if_pos (List.elem_iff.mpr
    (List.mem_append_right _ (List.mem_cons_self sep f)))]
  refine afterSep_append f (valuePfx :: k) ?_
  simp only [sepFree, List.mem_cons, not_or]
  exact ⟨by decide, hk⟩

/-- Claim C5, counterexample: with record key "a|b" (which contains the
separator byte), the pair (field "f", value "v") written by multi-set is
not among the (field, value) pairs returned by get-all — the decoded field
name is "b|f" instead — so the round trip fails on keys containing the
separator. -/
theorem C5_counterexample :
    ((hmset [[97, 124, 98], [102], [118]] []).map
        (fun out =>
          decide ((([102], [118]) : Bytes × Bytes)
            ∈ GetHashAsArray out.2 [97, 124, 98])))
      = some false ∧
    ((hmset [[97, 124, 98], [102], [118]] []).map
        (fun out => GetHashAsArray out.2 [97, 124, 98]))
      = some [([98, 124, 102], [118])] := by
  constructor
  · decide
  · decide

/-- Claim C5 (amended): for a separator-free record key that is absent (no
field entries in its range and no wrong-typed metadata), a single multi-set
followed by get-all returns exactly the written (field, value) map as a set
(order unconstrained); fields and values are arbitrary byte strings. -/
theorem C5_roundtrip (db : DB) (k : Bytes) (rest : List Bytes)
    (hk : sepFree k) (hwt : wrongTipe db k = false)
    (hempty : dbScan db (encodeFieldKey k []) = [])
    (hodd : (k :: rest).length % 2 = 1) (hlen2 : 2 ≤ (k :: rest).length) :
    ∃ db2, hmset (k :: rest) db = some (.ok, db2) ∧
      ∀ fv : Bytes × Bytes,
        (fv ∈ GetHashAsArray db2 k ↔ fv ∈ insPairs [] rest) := by
  have h1 : ¬ (k :: rest).length ≤ 1 := by omega
  have hrun : hmset (k :: rest) db
      = some (.ok, PutHash db k respHash (insPairs [] rest)) := by
    unfold hmset
    rw [if_neg (by
      simp
      refine ⟨fun he => h1 (by rw [he]; simp), ?_⟩
      exact hodd)]
    simp only [List.getElem?_cons_zero]
    rw [hwt]
    rfl
  refine ⟨_, hrun, ?_⟩
  intro fv
  have hnd : ((insPairs [] rest).map Prod.fst).Nodup :=
    insPairs_keys_nodup rest [] (by simp)
  have hfe : ∀ e : Bytes × Bytes,
      e ∈ dbScan (PutHash db k respHash (insPairs [] rest)) (encodeFieldKey k []) ↔
      ∃ fw ∈ insPairs [] rest, e = (encodeFieldKey k fw.1, fw.2) := by
    intro e
    unfold dbScan
    rw [List.mem_filter]
    unfold PutHash
    rw [mem_foldPut_nodup k (insPairs [] rest) _ e hnd]
    constructor
    · rintro ⟨⟨fw, hfw, rfl⟩ | ⟨hbase, hall⟩, hpfx⟩
      · exact ⟨fw, hfw, rfl⟩
      · exfalso
        rw [mem_dbPut] at hbase
        rcases hbase with rfl | ⟨hdb2, hne⟩
        · rw [pfx_meta_false] at hpfx
          cases hpfx
        · have hmem : e ∈ dbScan db (encodeFieldKey k []) :=
            List.mem_filter.mpr ⟨hdb2, hpfx⟩
          rw [hempty] at hmem
          cases hmem
    · rintro ⟨fw, hfw, rfl⟩
      exact ⟨Or.inl ⟨fw, hfw, rfl⟩, pfx_self k fw.1⟩
  unfold GetHashAsArray
  rw [List.mem_map]
  constructor
  · rintro ⟨e, he, rfl⟩
    obtain ⟨fw, hfw, rfl⟩ := (hfe e).mp he
    rw [fieldFromKey_encode k fw.1 hk]
    exact hfw
  · intro hfv
    refine ⟨(encodeFieldKey k fv.1, fv.2), (hfe _).mpr ⟨fv, hfv, rfl⟩, ?_⟩
    rw [fieldFromKey_encode k fv.1 hk]

/-- Claim C5, witness for the amended theorem. -/
theorem C5_roundtrip_witness :
    ∃ db2, hmset [[107], [102], [118]] [] = some (.ok, db2) ∧
      ∀ fv : Bytes × Bytes,
        (fv ∈ GetHashAsArray db2 [107] ↔ fv ∈ insPairs [] [[102], [118]]) :=
  C5_roundtrip [] [107] [[102], [118]] (by decide) (by decide) rfl
    (by decide) (by decide)

/-- Claim C10: a zero-length value stored through set is indistinguishable
from an absent field for the per-field commands: after set(k,f,"") on a key
not of another type, field-exists replies 0, field-get replies the nil
sentinel, string-length replies 0, and set-if-absent overwrites the stored
empty value and replies 1. -/
theorem C10_empty_value_absent (db : DB) (k f v2 : Bytes)
    (hwt : wrongTipe db k = false) :
    ∃ r1 db1, hset [k, f, []] db = some (r1, db1) ∧
      hexists [k, f] db1 = some (.ints 0, db1) ∧
      hget [k, f] db1 = some (.nilBulk, db1) ∧
      hstrlen [k, f] db1 = some (.ints 0, db1) ∧
      hsetnx [k, f, v2] db1 = some (.ints 1, PutHash db1 k respHash [(f, v2)]) := by
  have hset1 : ∃ r1, hset [k, f, []] db
      = some (r1, PutHash db k respHash [(f, [])]) := by
    unfold hset
    simp only [List.getElem?_cons_succ, List.getElem?_cons_zero]
    rw [hwt, GetFields_single, mapGet_single, mapPut_single]
    by_cases hfl : ((ldbGetD db (encodeFieldKey k f)).length == 0) = true
    · exact ⟨.ints 1, by rw [hfl]; rfl⟩
    · have hfl2 : ((ldbGetD db (encodeFieldKey k f)).length == 0) = false := by
        simpa using hfl
      exact ⟨.ints 0, by rw [hfl2]; rfl⟩
  obtain ⟨r1, hr1⟩ := hset1
  set db1 := PutHash db k respHash [(f, [])] with hdb1
  have hhas1 : dbHas db1 k = some respHash := dbHas_PutHash_self db k respHash _
  have hwt1 : wrongTipe db1 k = false := wrongTipe_PutHash_self db k _
  have hval1 : ldbGetD db1 (encodeFieldKey k f) = [] := by
    unfold ldbGetD
    rw [hdb1, dbGet_PutHash_single]
    rfl
  refine ⟨r1, db1, hr1, ?_, ?_, ?_, ?_⟩
  · unfold hexists
    simp only [List.getElem?_cons_succ, List.getElem?_cons_zero]
    rw [hwt1, GetFields_single, mapGet_single, hval1]
    rfl
  · unfold hget
    simp only [List.getElem?_cons_succ, List.getElem?_cons_zero]
    rw [hhas1, GetFields_single, mapGet_single, hval1]
    rfl
  · unfold hstrlen
    simp only [List.getElem?_cons_succ, List.getElem?_cons_zero]
    rw [hhas1, GetFields_single, mapGet_single, hval1]
    rfl
  · unfold hsetnx
    simp only [List.getElem?_cons_succ, List.getElem?_cons_zero]
    rw [hwt1, GetFields_single, mapGet_single, hval1, mapPut_single]
    rfl

/-- Claim C10, witness. -/
theorem C10_empty_value_absent_witness :
    ∃ r1 db1, hset [[107], [102], []] [] = some (r1, db1) ∧
      hexists [[107], [102]] db1 = some (.ints 0, db1) ∧
      hget [[107], [102]] db1 = some (.nilBulk, db1) ∧
      hstrlen [[107], [102]] db1 = some (.ints 0, db1) ∧
      hsetnx [[107], [102], [120]] db1
        = some (.ints 1, PutHash db1 [107] respHash [([102], [120])]) :=
  C10_empty_value_absent [] [107] [102] [120] (by decide)

/-- Claim C6, counterexample: with v = "" (a zero-length value), the second
set replies 1 again instead of 0, because a stored empty value is
indistinguishable from an absent field. -/
theorem C6_counterexample :
    (hset [[107], [102], []] []).map Prod.fst = some (.ints 1) ∧
    ((hset [[107], [102], []] []).bind
        (fun out => hset [[107], [102], [120]] out.2)).map Prod.fst
      = some (.ints 1) := by
  decide

/-- Claim C6 (amended): on a key not of another type whose field f is
currently absent (no non-empty stored value), set(k,f,v) with nonempty v
replies 1, a second set(k,f,v2) replies 0, and field-get then replies v2
(v2 nonempty; a zero-length v or v2 collapses to the absent sentinel). -/
theorem C6_set_twice (db : DB) (k f v1 v2 : Bytes)
    (hwt : wrongTipe db k = false)
    (habs : ldbGetD db (encodeFieldKey k f) = [])
    (hv1 : v1 ≠ []) (hv2 : v2 ≠ []) :
    ∃ db1 db2,
      hset [k, f, v1] db = some (.ints 1, db1) ∧
      hset [k, f, v2] db1 = some (.ints 0, db2) ∧
      hget [k, f] db2 = some (.bulk v2, db2) := by
  have hlen1 : (v1.length == 0) = false := by
    simp only [beq_eq_false_iff_ne, ne_eq]
    intro h
    exact hv1 (List.eq_nil_of_length_eq_zero h)
  have hlen2 : (v2.length == 0) = false := by
    simp only [beq_eq_false_iff_ne, ne_eq]
    intro h
    exact hv2 (List.eq_nil_of_length_eq_zero h)
  refine ⟨PutHash db k respHash [(f, v1)],
    PutHash (PutHash db k respHash [(f, v1)]) k respHash [(f, v2)], ?_, ?_, ?_⟩
  · unfold hset
    simp only [List.getElem?_cons_succ, List.getElem?_cons_zero]
    rw [hwt, GetFields_single, mapGet_single, mapPut_single, habs]
    rfl
  · unfold hset
    simp only [List.getElem?_cons_succ, List.getElem?_cons_zero]
    have hv1get : ldbGetD (PutHash db k respHash [(f, v1)]) (encodeFieldKey k f) = v1 := by
      unfold ldbGetD
      rw [dbGet_PutHash_single]
      rfl
    rw [wrongTipe_PutHash_self, GetFields_single, mapGet_single, mapPut_single, hv1get,
      hlen1]
    rfl
  · unfold hget
    simp only [List.getElem?_cons_succ, List.getElem?_cons_zero]
    have hv2get : ldbGetD (PutHash (PutHash db k respHash [(f, v1)]) k respHash [(f, v2)])
        (encodeFieldKey k f) = v2 := by
      unfold ldbGetD
      rw [dbGet_PutHash_single]
      rfl
    rw [dbHas_PutHash_self, GetFields_single, mapGet_single, hv2get, hlen2]
    rfl

/-- Claim C6, witness for the amended theorem. -/
theorem C6_set_twice_witness :
    ∃ db1 db2,
      hset [[107], [102], [118]] [] = some (.ints 1, db1) ∧
      hset [[107], [102], [119]] db1 = some (.ints 0, db2) ∧
      hget [[107], [102]] db2 = some (.bulk [119], db2) :=
  C6_set_twice [] [107] [102] [118] [119] (by decide) (by decide)
    (by decide) (by decide)
